import Mathlib

/-!
Verification development for the Fluxel node_resolver crate
(src/src-tauri/crates/node_resolver/src/lib.rs).

The Rust code is shallowly embedded: paths and specifiers are `String`s
(assumed UTF-8 and normalized, i.e. no trailing slash and no repeated
slashes, matching what `camino::Utf8PathBuf` produces for the inputs the
resolver builds); the filesystem is an abstract record of boolean/list
queries (`FS`); `serde_json::Value` is the inductive `Json`, whose objects
are association lists in iteration order; fallible filesystem reads are
`Option`-valued.
-/

/-! ## String helpers (embedding `str` operations used by the crate) -/

/-- Embeds Rust `s.starts_with(p)`. -/
def strStartsWith (s p : String) : Bool := p.toList.isPrefixOf s.toList

/-- Embeds Rust `s.ends_with(p)`. -/
def strEndsWith (s p : String) : Bool := p.toList.isSuffixOf s.toList

/-- Char-list worker for `trimDotSlash`. -/
def trimDotSlashL : List Char → List Char
  | '.' :: '/' :: rest => trimDotSlashL rest
  | l => l

/-- Embeds Rust `s.trim_start_matches("./")`: removes every leading repetition
of `"./"`. -/
def trimDotSlash (s : String) : String := String.mk (trimDotSlashL s.toList)

/-- Embeds Rust `s.split_once(c)`: splits at the first occurrence of `c`,
excluding the separator; `none` when `c` does not occur. -/
def splitOnceChar (c : Char) (s : String) : Option (String × String) :=
  match s.toList.span (fun x => x ≠ c) with
  | (_, []) => none
  | (pre, _ :: tail) => some (String.mk pre, String.mk tail)

/-- Embeds Rust `s.replace('\\', "/")` from `resolve_module_native`. -/
def normalizeSlashes (s : String) : String :=
  String.mk (s.toList.map (fun ch => if ch = '\\' then '/' else ch))

/-- Embeds Rust `s.trim().is_empty()`: true iff every char is whitespace
(ASCII whitespace; the Unicode extras Rust also trims are irrelevant to the
claims). -/
def allWhitespace (s : String) : Bool :=
  s.toList.all (fun ch => ch = ' ' || ch = '\t' || ch = '\n' || ch = '\r')

/-- Embeds Rust `s.trim_start_matches('@')` from `discover_typings_native`. -/
def trimLeadingAt (s : String) : String :=
  String.mk (s.toList.dropWhile (fun ch => ch = '@'))

/-- Embeds Rust `s.replace('/', "__")` from `discover_typings_native`. -/
def replaceSlashUnderscores (s : String) : String :=
  String.mk (s.toList.flatMap (fun ch => if ch = '/' then ['_', '_'] else [ch]))

/-- Embeds Rust `mapped.replace('*', matched)` (every `*` replaced). -/
def replaceStar (s mid : String) : String :=
  String.mk (s.toList.flatMap (fun ch => if ch = '*' then mid.toList else [ch]))

/-- The captured middle segment `&key[pre.len()..key.len()-suf.len()]` of the
wildcard match in `resolve_exports`. This is the value of the slice only when
`pre.length + suf.length ≤ key.length`; when `pre` and `suf` overlap in `key`
the Rust slice (lib.rs 701) has start > end and panics. That case is modelled
separately: `star_step` reports it as `StarOutcome.panics` and every theorem
that asserts a resolution result either hypothesises it away
(`resolve_module_panics … = false`) or carries it as an explicit disjunct, so
`starMiddle` is never consulted there. -/
def starMiddle (key pre suf : String) : String :=
  String.mk ((key.toList.take (key.toList.length - suf.toList.length)).drop pre.toList.length)

/-- Byte-lexicographic `≤` on char lists, embedding Rust `String: Ord`
(paths here are ASCII, so char order equals byte order). -/
def charListLe : List Char → List Char → Bool
  | [], _ => true
  | _ :: _, [] => false
  | a :: as_, b :: bs => if a = b then charListLe as_ bs else decide (a < b)

/-- String comparison used to model `Vec::<String>::sort()`. -/
def strLe (a b : String) : Bool := charListLe a.toList b.toList

/-- Insertion step of the sort model. -/
def insertSorted (x : String) : List String → List String
  | [] => [x]
  | y :: ys => if strLe x y then x :: y :: ys else y :: insertSorted x ys

/-- Models Rust `files.sort()` (any sorting algorithm: sorted permutation). -/
def sortStrings : List String → List String
  | [] => []
  | x :: xs => insertSorted x (sortStrings xs)

/-- Embeds Rust `Vec::dedup()`: removes consecutive duplicates. -/
def dedupConsec : List String → List String
  | [] => []
  | [x] => [x]
  | x :: y :: rest =>
    if x = y then dedupConsec (y :: rest) else x :: dedupConsec (y :: rest)

/-! ## Path helpers (embedding `camino::Utf8Path` operations) -/

/-- Embeds `Utf8Path::join` / `push`: an absolute right operand replaces the
path, otherwise the components are joined with a separator. -/
def pjoin (p q : String) : String :=
  if strStartsWith q "/" then q else if p = "" then q else p ++ "/" ++ q

/-- Embeds `Utf8Path::file_name` (for the file names the crate inspects):
the part after the last `/`. -/
def fileName (p : String) : String :=
  String.mk ((p.toList.reverse.takeWhile (fun ch => ch ≠ '/')).reverse)

/-- Embeds `Utf8Path::extension`: the part of the file name after the last
dot; `none` when there is no dot or the name starts with its only dot. -/
def pathExtension (p : String) : Option String :=
  let revName := (fileName p).toList.reverse
  match revName.dropWhile (fun ch => ch ≠ '.') with
  | [] => none
  | _ :: before =>
    if before.isEmpty then none
    else some (String.mk ((revName.takeWhile (fun ch => ch ≠ '.')).reverse))

/-- Embeds `Utf8Path::parent` (equivalently a successful `pop`): strips the
final component; `none` for `""` and `"/"`. -/
def parentPath (p : String) : Option String :=
  if p = "" ∨ p = "/" then none
  else
    match p.toList.reverse.dropWhile (fun ch => ch ≠ '/') with
    | [] => some ""
    | _ :: tail => if tail.isEmpty then some "/" else some (String.mk tail.reverse)

theorem dropWhileHeadNot {α : Type} {P : α → Bool} {l t : List α} {c : α}
    (h : l.dropWhile P = c :: t) : P c = false := by
  induction l with
  | nil => simp [List.dropWhile] at h
  | cons a as ih =>
    rw [List.dropWhile_cons] at h
    split at h
    · exact ih h
    · obtain ⟨rfl, -⟩ := List.cons.inj h
      rename_i hp
      simpa using hp

theorem string_ne_empty_data {p : String} (h : p ≠ "") : p.data ≠ [] := by
  intro h0
  exact h (String.ext (h0.trans (by decide)))

theorem parentPath_length_lt {p q : String} (h : parentPath p = some q) :
    q.length < p.length := by
  unfold parentPath at h
  split at h
  · exact absurd h (by simp)
  rename_i hne
  rw [not_or] at hne
  obtain ⟨hne1, hne2⟩ := hne
  have hdata : p.toList = p.data := rfl
  have hplen : p.length = p.data.length := rfl
  have hsplit := List.takeWhile_append_dropWhile
    (p := fun ch => decide (ch ≠ '/')) (l := p.toList.reverse)
  split at h
  · rename_i hdrop
    have hq : q = "" := (Option.some.inj h).symm
    subst hq
    have hd : p.data ≠ [] := string_ne_empty_data hne1
    have hpos : 0 < p.data.length := List.length_pos.mpr hd
    rw [show (("" : String).length) = 0 from rfl, hplen]
    exact hpos
  · rename_i c tail hdrop
    have hlen : (p.toList.reverse.takeWhile (fun ch => decide (ch ≠ '/'))).length
        + (tail.length + 1) = p.data.length := by
      have hl2 := congrArg List.length hsplit
      rw [hdrop] at hl2
      simpa [List.length_append, hdata] using hl2
    split at h
    · rename_i htail
      have hq : q = "/" := (Option.some.inj h).symm
      subst hq
      have htl : tail = [] := by
        cases tail with
        | nil => rfl
        | cons a t => simp [List.isEmpty] at htail
      subst htl
      have htake : (p.toList.reverse.takeWhile (fun ch => decide (ch ≠ '/'))).length ≠ 0 := by
        intro h0
        have hrev : p.toList.reverse = [c] := by
          rw [← hsplit, List.length_eq_zero.mp h0, hdrop]
          rfl
        have hc' : c = '/' := by
          have hc := dropWhileHeadNot (P := fun ch => decide (ch ≠ '/')) hdrop
          simpa using hc
        have hd : p.data = ['/'] := by
          have hl := congrArg List.reverse hrev
          rw [List.reverse_reverse] at hl
          rw [← hdata]
          simpa [hc'] using hl
        exact hne2 (String.ext (hd.trans (by decide)))
      rw [show (("/" : String).length) = 1 from rfl, hplen]
      omega
    · rename_i htail
      have hq : q = String.mk tail.reverse := (Option.some.inj h).symm
      subst hq
      have hq1 : (String.mk tail.reverse).length = tail.length := by
        show tail.reverse.length = tail.length
        exact List.length_reverse tail
      rw [hq1, hplen]
      omega

/-! ## JSON model (embedding `serde_json::Value` as used by the resolver) -/

/-- Embeds `serde_json::Value` restricted to the shapes the resolver
distinguishes: strings, arrays, objects (association lists in iteration
order), and everything else (numbers, booleans, null). -/
inductive Json where
  | str : String → Json
  | arr : List Json → Json
  | obj : List (String × Json) → Json
  | other : Json

/-- Embeds `serde_json::Map::get`: first binding of the key wins. -/
def jlookup (k : String) : List (String × Json) → Option Json
  | [] => none
  | (k', v) :: rest => if k' = k then some v else jlookup k rest

/-- Embeds `Value::get(key)`: object lookup, `none` on any other shape. -/
def jget (v : Json) (k : String) : Option Json :=
  match v with
  | .obj m => jlookup k m
  | _ => none

theorem jlookup_sizeOf {k : String} {m : List (String × Json)} {v : Json}
    (h : jlookup k m = some v) : sizeOf v < sizeOf m := by
  induction m with
  | nil => simp [jlookup] at h
  | cons p rest ih =>
    obtain ⟨k', v'⟩ := p
    rw [jlookup] at h
    split at h
    · obtain rfl := Option.some.inj h
      simp only [List.cons.sizeOf_spec, Prod.mk.sizeOf_spec]
      omega
    · have := ih h
      simp only [List.cons.sizeOf_spec]
      omega

/-! ## Export target selection (lib.rs `select_export_target` and the
types-prioritized `select_export_target_with_conditions`) -/

mutual
/-- Structural size of a `Json` value, used as (provably sufficient) fuel for
the selector recursions below. -/
def jsize : Json → Nat
  | .str _ => 1
  | .other => 1
  | .arr l => 1 + jsizeList l
  | .obj m => 1 + jsizeMap m

def jsizeList : List Json → Nat
  | [] => 0
  | v :: rest => jsize v + jsizeList rest

def jsizeMap : List (String × Json) → Nat
  | [] => 0
  | (_, v) :: rest => jsize v + jsizeMap rest
end

theorem jsize_pos (j : Json) : 1 ≤ jsize j := by
  cases j <;> simp [jsize] <;> omega

theorem jlookup_jsize {k : String} {m : List (String × Json)} {v : Json}
    (h : jlookup k m = some v) : jsize v ≤ jsizeMap m := by
  induction m with
  | nil => simp [jlookup] at h
  | cons p rest ih =>
    obtain ⟨k', v'⟩ := p
    rw [jlookup] at h
    split at h
    · obtain rfl := Option.some.inj h
      simp [jsizeMap]
    · have := ih h
      simp [jsizeMap]
      omega

theorem mem_jsizeList {v : Json} {l : List Json} (h : v ∈ l) :
    jsize v ≤ jsizeList l := by
  induction l with
  | nil => simp at h
  | cons w rest ih =>
    rcases List.mem_cons.mp h with rfl | hmem
    · simp [jsizeList]
    · have := ih hmem
      simp [jsizeList]
      omega

/-- First-match loop over array entries, shared by `select_export_target`
and `select_export_target_with_conditions`: entries tried left to right,
first one that resolves wins. -/
def selArrGo (step : Json → Option String) : List Json → Option String
  | [] => none
  | v :: rest =>
    match step v with
    | some t => some t
    | none => selArrGo step rest

/-- The condition loop shared by both selectors: conditions in caller order;
a key that is present but whose recursive selection fails does not stop the
loop. -/
def selCondsGo (step : Json → Option String) (m : List (String × Json)) :
    List String → Option String
  | [] => none
  | c :: rest =>
    match jlookup c m with
    | some v =>
      match step v with
      | some t => some t
      | none => selCondsGo step m rest
    | none => selCondsGo step m rest

/-- Fuel-indexed worker for `select_export_target`. The fuel argument exists
only to make the recursion structural (hence computable by the kernel); any
fuel of at least `jsize j` gives the same answer (`selTGo_fuel_irrel`), so
the 0 branch is unreachable from `select_export_target`. -/
def selTGo (conds : List String) : Nat → Json → Option String
  | 0, _ => none
  | f + 1, j =>
    match j with
    | .str s => some s
    | .arr l => selArrGo (selTGo conds f) l
    | .obj m =>
      match selCondsGo (selTGo conds f) m conds with
      | some t => some t
      | none =>
        match jlookup "default" m with
        | some d => selTGo conds f d
        | none => none
    | .other => none

/-- Embeds `select_export_target` (lib.rs 716-743): strings returned as-is;
arrays tried left to right; objects try the caller's conditions in order and
finally the literal `"default"` key. -/
def select_export_target (j : Json) (conds : List String) : Option String :=
  selTGo conds (jsize j) j

theorem selArrGo_congr {s1 s2 : Json → Option String} {l : List Json}
    (h : ∀ v ∈ l, s1 v = s2 v) : selArrGo s1 l = selArrGo s2 l := by
  induction l with
  | nil => rfl
  | cons v rest ih =>
    simp only [selArrGo]
    rw [h v (by simp)]
    cases s2 v with
    | some t => rfl
    | none => exact ih (fun w hw => h w (by simp [hw]))

theorem selCondsGo_congr {s1 s2 : Json → Option String} {m : List (String × Json)}
    (h : ∀ c v, jlookup c m = some v → s1 v = s2 v) :
    ∀ cs, selCondsGo s1 m cs = selCondsGo s2 m cs := by
  intro cs
  induction cs with
  | nil => rfl
  | cons c rest ih =>
    cases hl : jlookup c m with
    | none => simp only [selCondsGo, hl]; exact ih
    | some v =>
      simp only [selCondsGo, hl]
      rw [h c v hl]
      cases s2 v with
      | some t => rfl
      | none => exact ih

theorem selTGo_fuel_irrel : ∀ (f1 : Nat) (j : Json) (f2 : Nat) (conds : List String),
    jsize j ≤ f1 → jsize j ≤ f2 → selTGo conds f1 j = selTGo conds f2 j := by
  intro f1
  induction f1 with
  | zero =>
    intro j f2 conds h1 h2
    exact absurd h1 (by have := jsize_pos j; omega)
  | succ a ih =>
    intro j f2 conds h1 h2
    cases f2 with
    | zero => exact absurd h2 (by have := jsize_pos j; omega)
    | succ b =>
      cases j with
      | str s => rfl
      | other => rfl
      | arr l =>
        simp only [selTGo]
        apply selArrGo_congr
        intro v hv
        have hs := mem_jsizeList hv
        have h1' : jsize (Json.arr l) = 1 + jsizeList l := rfl
        rw [h1'] at h1 h2
        exact ih v b conds (by omega) (by omega)
      | obj m =>
        have h1' : jsize (Json.obj m) = 1 + jsizeMap m := rfl
        rw [h1'] at h1 h2
        have hcnd : selCondsGo (selTGo conds a) m conds
            = selCondsGo (selTGo conds b) m conds := by
          apply selCondsGo_congr
          intro c v hl
          have := jlookup_jsize hl
          exact ih v b conds (by omega) (by omega)
        simp only [selTGo]
        rw [hcnd]
        cases selCondsGo (selTGo conds b) m conds with
        | some t => rfl
        | none =>
          cases hdef : jlookup "default" m with
          | none => rfl
          | some d =>
            have := jlookup_jsize hdef
            show selTGo conds a d = selTGo conds b d
            exact ih d b conds (by omega) (by omega)

/-- Any sufficient fuel computes `select_export_target`; this justifies the
fuel in the embedding. -/
theorem selTGo_eq_select {f : Nat} {j : Json} {conds : List String}
    (h : jsize j ≤ f) : selTGo conds f j = select_export_target j conds :=
  selTGo_fuel_irrel f j (jsize j) conds h (Nat.le_refl _)

theorem select_export_target_str (s : String) (conds : List String) :
    select_export_target (Json.str s) conds = some s := rfl

/-- Unfolding equation of `select_export_target` on an object, with the
recursive occurrences re-expressed through `select_export_target` itself. -/
theorem select_export_target_obj (m : List (String × Json)) (conds : List String) :
    select_export_target (Json.obj m) conds =
      match selCondsGo (fun v => select_export_target v conds) m conds with
      | some t => some t
      | none =>
        match jlookup "default" m with
        | some d => select_export_target d conds
        | none => none := by
  show selTGo conds (jsize (Json.obj m)) (Json.obj m) = _
  have hsz : jsize (Json.obj m) = jsizeMap m + 1 := by
    show 1 + jsizeMap m = jsizeMap m + 1
    omega
  rw [hsz]
  simp only [selTGo]
  have hcnd : selCondsGo (selTGo conds (jsizeMap m)) m conds
      = selCondsGo (fun v => select_export_target v conds) m conds := by
    apply selCondsGo_congr
    intro c v hl
    have := jlookup_jsize hl
    exact selTGo_eq_select (by omega)
  rw [hcnd]
  cases selCondsGo (fun v => select_export_target v conds) m conds with
  | some t => rfl
  | none =>
    cases hdef : jlookup "default" m with
    | none => rfl
    | some d =>
      have := jlookup_jsize hdef
      show selTGo conds (jsizeMap m) d = select_export_target d conds
      exact selTGo_eq_select (by omega)

/-- Fuel-indexed worker for `select_export_target_with_conditions`, in the
same style as `selTGo`. -/
def selTypesGo (conds : List String) : Nat → Json → Option String
  | 0, _ => none
  | f + 1, j =>
    match j with
    | .str s =>
      if strEndsWith s ".d.ts" || strEndsWith s ".d.mts" || strEndsWith s ".d.cts"
      then some s else none
    | .arr l => selArrGo (selTypesGo conds f) l
    | .obj m =>
      match jlookup "types" m with
      | some val =>
        match selTypesGo conds f val with
        | some t => some t
        | none =>
          match val with
          | .str s => some s
          | _ =>
            match selCondsGo (selTypesGo conds f) m conds with
            | some t => some t
            | none =>
              match jlookup "default" m with
              | some d => selTypesGo conds f d
              | none => none
      | none =>
        match selCondsGo (selTypesGo conds f) m conds with
        | some t => some t
        | none =>
          match jlookup "default" m with
          | some d => selTypesGo conds f d
          | none => none
    | .other => none

/-- Embeds `select_export_target_with_conditions` (lib.rs 291-336): like
`select_export_target` but a plain string is accepted only when it names a
declaration file, the `"types"` key of an object is probed first (its raw
string value accepted as a fallback even when not a declaration file), and
`"default"` closes the search. -/
def select_export_target_with_conditions (j : Json) (conds : List String) : Option String :=
  selTypesGo conds (jsize j) j

theorem selTypesGo_fuel_irrel : ∀ (f1 : Nat) (j : Json) (f2 : Nat) (conds : List String),
    jsize j ≤ f1 → jsize j ≤ f2 → selTypesGo conds f1 j = selTypesGo conds f2 j := by
  intro f1
  induction f1 with
  | zero =>
    intro j f2 conds h1 h2
    exact absurd h1 (by have := jsize_pos j; omega)
  | succ a ih =>
    intro j f2 conds h1 h2
    cases f2 with
    | zero => exact absurd h2 (by have := jsize_pos j; omega)
    | succ b =>
      cases j with
      | str s => rfl
      | other => rfl
      | arr l =>
        simp only [selTypesGo]
        apply selArrGo_congr
        intro v hv
        have hs := mem_jsizeList hv
        have h1' : jsize (Json.arr l) = 1 + jsizeList l := rfl
        rw [h1'] at h1 h2
        exact ih v b conds (by omega) (by omega)
      | obj m =>
        have h1' : jsize (Json.obj m) = 1 + jsizeMap m := rfl
        rw [h1'] at h1 h2
        have hcnd : selCondsGo (selTypesGo conds a) m conds
            = selCondsGo (selTypesGo conds b) m conds := by
          apply selCondsGo_congr
          intro c v hl
          have := jlookup_jsize hl
          exact ih v b conds (by omega) (by omega)
        cases hty : jlookup "types" m with
        | none =>
          simp only [selTypesGo, hty]
          rw [hcnd]
          cases selCondsGo (selTypesGo conds b) m conds with
          | some t => rfl
          | none =>
            cases hdef : jlookup "default" m with
            | none => rfl
            | some d =>
              have := jlookup_jsize hdef
              show selTypesGo conds a d = selTypesGo conds b d
              exact ih d b conds (by omega) (by omega)
        | some val =>
          have hszval := jlookup_jsize hty
          simp only [selTypesGo, hty]
          rw [ih val b conds (by omega) (by omega)]
          cases selTypesGo conds b val with
          | some t => rfl
          | none =>
            have hrest : (match selCondsGo (selTypesGo conds a) m conds with
                | some t => some t
                | none =>
                  match jlookup "default" m with
                  | some d => selTypesGo conds a d
                  | none => none) =
                (match selCondsGo (selTypesGo conds b) m conds with
                | some t => some t
                | none =>
                  match jlookup "default" m with
                  | some d => selTypesGo conds b d
                  | none => none) := by
              rw [hcnd]
              cases selCondsGo (selTypesGo conds b) m conds with
              | some t => rfl
              | none =>
                cases hdef : jlookup "default" m with
                | none => rfl
                | some d =>
                  have := jlookup_jsize hdef
                  show selTypesGo conds a d = selTypesGo conds b d
                  exact ih d b conds (by omega) (by omega)
            cases val with
            | str s => rfl
            | arr l2 => exact hrest
            | obj m2 => exact hrest
            | other => exact hrest

/-- Any sufficient fuel computes `select_export_target_with_conditions`. -/
theorem selTypesGo_eq_select {f : Nat} {j : Json} {conds : List String}
    (h : jsize j ≤ f) :
    selTypesGo conds f j = select_export_target_with_conditions j conds :=
  selTypesGo_fuel_irrel f j (jsize j) conds h (Nat.le_refl _)

/-! ## Exports-map resolution (lib.rs `resolve_exports`, `resolve_exports_types`) -/

/-- Embeds Rust `pattern.find('*')` with the prefix/suffix split of
`resolve_exports`: the part before the first `*` and the part after it. -/
def starSplit (pattern : String) : Option (String × String) := splitOnceChar '*' pattern

/-- Outcome of one pattern key inside the `find_map` closure of
`resolve_exports` (lib.rs 696-707) against the requested key: `miss` when
the pattern has no `*`, its halves do not bracket the key, or they bracket it
without overlap but the value selects no target (the `?` on lib.rs 702 — the
closure yields `None` for this pattern only and iteration continues); `found`
when a target is selected, with the captured middle substituted for every
`*`; `panics` when the two halves bracket the key but overlap in it
(`pre.len + suf.len > key.len`), in which case the slice
`&key[prefix.len()..key.len()-suffix.len()]` on lib.rs 701 has start > end
and panics — note the slice is evaluated before the selection on lib.rs 702,
so this happens regardless of what the value would select, and the program
returns nothing at all. -/
inductive StarOutcome where
  | miss : StarOutcome
  | found : String → StarOutcome
  | panics : StarOutcome
deriving DecidableEq, Repr

/-- One iteration of the wildcard `find_map` closure (lib.rs 696-707),
including the lib.rs 701 panic case. Lengths are char counts; the keys in
scope are ASCII, where char counts equal Rust's byte counts. -/
def star_step (conds : List String) (key pattern : String) (v : Json) : StarOutcome :=
  match starSplit pattern with
  | none => StarOutcome.miss
  | some ps =>
    if strStartsWith key ps.1 && strEndsWith key ps.2 then
      if key.toList.length < ps.1.toList.length + ps.2.toList.length then
        StarOutcome.panics
      else
        match select_export_target v conds with
        | some mapped => StarOutcome.found (replaceStar mapped (starMiddle key ps.1 ps.2))
        | none => StarOutcome.miss
    else StarOutcome.miss

/-- The `obj.iter().find_map(..)` wildcard scan of `resolve_exports`: the
first pattern whose step is not `miss` decides the scan, yielding either a
`found` target or the lib.rs 701 panic. -/
def star_scan (conds : List String) (key : String) :
    List (String × Json) → StarOutcome
  | [] => StarOutcome.miss
  | pv :: rest =>
    match star_step conds key pv.1 pv.2 with
    | StarOutcome.miss => star_scan conds key rest
    | r => r

/-- First-event decomposition of the wildcard scan: either every pattern
steps to `miss`, or the list splits at a first pattern whose step is a
non-`miss` event, and that event is the scan's outcome. -/
theorem star_scan_first_event (conds : List String) (key : String) :
    ∀ m : List (String × Json),
    (star_scan conds key m = StarOutcome.miss
       ∧ ∀ pv ∈ m, star_step conds key pv.1 pv.2 = StarOutcome.miss)
    ∨ (∃ r l1 pv l2, m = l1 ++ pv :: l2
        ∧ star_step conds key pv.1 pv.2 = r ∧ r ≠ StarOutcome.miss
        ∧ (∀ qv ∈ l1, star_step conds key qv.1 qv.2 = StarOutcome.miss)
        ∧ star_scan conds key m = r) := by
  intro m
  induction m with
  | nil => exact Or.inl ⟨rfl, by simp⟩
  | cons pv rest ih =>
    cases hstep : star_step conds key pv.1 pv.2 with
    | miss =>
      rcases ih with ⟨hnone, hall⟩ | ⟨r, l1, qv, l2, hsplit, hq, hrne, hl1, hscan⟩
      · refine Or.inl ⟨?_, ?_⟩
        · simp only [star_scan, hstep]
          exact hnone
        · intro w hw
          rcases List.mem_cons.mp hw with hweq | hmem
          · rw [hweq]; exact hstep
          · exact hall w hmem
      · refine Or.inr ⟨r, pv :: l1, qv, l2, by simp [hsplit], hq, hrne, ?_, ?_⟩
        · intro w hw
          rcases List.mem_cons.mp hw with hweq | hmem
          · rw [hweq]; exact hstep
          · exact hl1 w hmem
        · simp only [star_scan, hstep]
          exact hscan
    | found t =>
      refine Or.inr ⟨StarOutcome.found t, [], pv, rest, by simp, hstep,
        fun h => StarOutcome.noConfusion h, by simp, ?_⟩
      simp only [star_scan, hstep]
    | panics =>
      refine Or.inr ⟨StarOutcome.panics, [], pv, rest, by simp, hstep,
        fun h => StarOutcome.noConfusion h, by simp, ?_⟩
      simp only [star_scan, hstep]

/-- Embeds `resolve_exports` (lib.rs 681-714): read the `exports` field; for
the root subpath select over the whole value, otherwise try the exact key
`"./<subpath>"` then the wildcard scan; join the target (leading `./`
stripped) onto the package directory. When the scan reports
`StarOutcome.panics` the Rust function does not return at all (the slice at
lib.rs 701 panics); the `none` produced here in that case is a placeholder
for a run that never finishes, and no theorem asserts a resolution result in
that region — the claim theorems over the full pipeline hypothesise
`resolve_module_panics … = false`, and the wildcard theorem carries the
panic case as its own disjunct asserting nothing about this value. -/
def resolve_exports (pkg : Json) (subpath : String) (pkg_dir : String)
    (conditions : List String) : Option String :=
  match jget pkg "exports" with
  | none => none
  | some exports =>
    let target? :=
      if subpath = "." then select_export_target exports conditions
      else
        match exports with
        | .obj m =>
          let key := "./" ++ trimDotSlash subpath
          match jlookup key m with
          | some value => select_export_target value conditions
          | none =>
            match star_scan conditions key m with
            | StarOutcome.found t => some t
            | _ => none
        | _ => none
    target?.map (fun t => pjoin pkg_dir (trimDotSlash t))

/-- The condition preference list of `resolve_exports_types` (lib.rs 265-269). -/
def types_conditions : List String := ["types", "typings", "default"]

/-- Embeds `resolve_exports_types` (lib.rs 259-288): types-prioritized export
lookup; a non-root subpath tries the exact key `"./<subpath>"` and otherwise
falls back to the root `"."` entry — there is no wildcard scan. -/
def resolve_exports_types (exports : Json) (subpath : String) (pkg_dir : String) :
    Option String :=
  let target? :=
    if subpath = "." then select_export_target_with_conditions exports types_conditions
    else
      match exports with
      | .obj m =>
        let key := "./" ++ trimDotSlash subpath
        match jlookup key m with
        | some value => select_export_target_with_conditions value types_conditions
        | none =>
          match jlookup "." m with
          | some value => select_export_target_with_conditions value types_conditions
          | none => none
      | _ => none
  target?.map (fun t => pjoin pkg_dir (trimDotSlash t))

example : resolve_exports
    (Json.obj [("exports", Json.obj [("./feature/*", Json.str "./src/feature/*.js")])])
    "feature/x" "/p" ["import", "default"] = some "/p/src/feature/x.js" := by decide

example : resolve_exports
    (Json.obj [("exports", Json.obj [("import", Json.str "./esm.js"),
      ("require", Json.str "./cjs.js"), ("default", Json.str "./esm.js")])])
    "." "/p" ["require", "import", "default"] = some "/p/cjs.js" := by decide

/-! ## Filesystem model -/

/-- Abstract filesystem: exactly the queries the resolver performs.
`readPkg dir` models `read_package_json(dir)` — the parsed
`<dir>/package.json`, with `none` for a read or parse failure, mirroring how
every caller consumes that `Result` (`.ok()` / `if let Ok`); `readDir`
models `fs::read_dir` with `Err` as the empty listing and entries given as
full paths in iteration order. -/
structure FS where
  isFile : String → Bool
  isDir : String → Bool
  readDir : String → List String
  readPkg : String → Option Json

/-- Embeds `Utf8Path::exists` as used by the probe in `resolve_package_dir`. -/
def existsPath (fs : FS) (p : String) : Bool := fs.isFile p || fs.isDir p

/-- Embeds `Value::as_str`. -/
def jasStr : Json → Option String
  | .str s => some s
  | _ => none

/-- First existing file among candidates (the extension loops of
`resolve_with_extensions`). -/
def firstFile (fs : FS) : List String → Option String
  | [] => none
  | c :: rest => if fs.isFile c then some c else firstFile fs rest

/-- Embeds `resolve_with_extensions` (lib.rs 627-651): the unmodified target
if it is a file; else `target + ext` for each extension in caller order;
else, only when the target is a directory, `target/index + ext` for each
extension in caller order. -/
def resolve_with_extensions (fs : FS) (target : String) (extensions : List String) :
    Option String :=
  if fs.isFile target then some target
  else
    match firstFile fs (extensions.map (fun e => target ++ e)) with
    | some c => some c
    | none =>
      if fs.isDir target then
        firstFile fs (extensions.map (fun e => pjoin target ("index" ++ e)))
      else none

/-- Embeds `resolve_path_like` (lib.rs 613-625). -/
def resolve_path_like (fs : FS) (base : String) (specifier : String)
    (extensions : List String) : Option String :=
  let target := if strStartsWith specifier "/" then specifier else pjoin base specifier
  resolve_with_extensions fs target extensions

/-- One `if let Some(entry) = ... { if let Some(resolved) = ... }` attempt of
`resolve_pkg_main`. -/
def tryEntryField (fs : FS) (pkg_dir : String) (extensions : List String)
    (entry? : Option String) : Option String :=
  match entry? with
  | some e => resolve_with_extensions fs (pjoin pkg_dir e) extensions
  | none => none

/-- Embeds `resolve_pkg_main` (lib.rs 653-679): the `types`/`typings` field
(the `or_else` happens before `as_str`, so a non-string `types` shadows
`typings`), then `module`, `main`, `browser`, then the package directory
itself as an index target. -/
def resolve_pkg_main (fs : FS) (pkg_dir : String) (pkg_json : Option Json)
    (extensions : List String) : Option String :=
  let fromFields :=
    match pkg_json with
    | none => none
    | some pkg =>
      match tryEntryField fs pkg_dir extensions
          (((jget pkg "types").or (jget pkg "typings")).bind jasStr) with
      | some r => some r
      | none =>
        match tryEntryField fs pkg_dir extensions ((jget pkg "module").bind jasStr) with
        | some r => some r
        | none =>
          match tryEntryField fs pkg_dir extensions ((jget pkg "main").bind jasStr) with
          | some r => some r
          | none => tryEntryField fs pkg_dir extensions ((jget pkg "browser").bind jasStr)
  match fromFields with
  | some r => some r
  | none => resolve_with_extensions fs pkg_dir extensions

/-! ## Package directory search (lib.rs `resolve_package_dir`) -/

/-- Fuel-indexed worker for `resolve_package_dir`. The fuel only makes the
upward loop structural: `parentPath` strictly shortens its argument
(`parentPath_length_lt`), so any fuel exceeding the current path length gives
the same answer (`resolve_package_dir_go_fuel_irrel`) and the 0 branch is
unreachable from `resolve_package_dir`. Body order mirrors the Rust loop:
probe `current/node_modules/<package>`, stop at `project_root`, else pop. -/
def resolve_package_dir_go (fs : FS) (project_root : Option String) (package : String) :
    Nat → String → Option String
  | 0, _ => none
  | fuel + 1, current =>
    let candidate := pjoin (pjoin current "node_modules") package
    if existsPath fs candidate then some candidate
    else if project_root = some current then none
    else
      match parentPath current with
      | none => none
      | some p => resolve_package_dir_go fs project_root package fuel p

/-- Embeds `resolve_package_dir` (lib.rs 590-611). -/
def resolve_package_dir (fs : FS) (start : String) (project_root : Option String)
    (package : String) : Option String :=
  resolve_package_dir_go fs project_root package (start.length + 1) start

theorem resolve_package_dir_go_fuel_irrel (fs : FS) (project_root : Option String)
    (package : String) : ∀ (f1 : Nat) (current : String) (f2 : Nat),
    current.length < f1 → current.length < f2 →
    resolve_package_dir_go fs project_root package f1 current
      = resolve_package_dir_go fs project_root package f2 current := by
  intro f1
  induction f1 with
  | zero => intro current f2 h1 h2; omega
  | succ a ih =>
    intro current f2 h1 h2
    cases f2 with
    | zero => omega
    | succ b =>
      simp only [resolve_package_dir_go]
      cases existsPath fs (pjoin (pjoin current "node_modules") package) with
      | true => rfl
      | false =>
        simp only [Bool.false_eq_true, if_false]
        by_cases hroot : project_root = some current
        · rw [if_pos hroot, if_pos hroot]
        · rw [if_neg hroot, if_neg hroot]
          cases hp : parentPath current with
          | none => rfl
          | some p =>
            have := parentPath_length_lt hp
            exact ih p b (by omega) (by omega)

/-- The sequence of directories whose `node_modules` the upward search
probes, in order (fuel-indexed worker). -/
def search_chain_go (project_root : Option String) : Nat → String → List String
  | 0, _ => []
  | fuel + 1, current =>
    current ::
      (if project_root = some current then []
       else
         match parentPath current with
         | none => []
         | some p => search_chain_go project_root fuel p)

/-- The directories probed by `resolve_package_dir fs start project_root _`,
in probe order: `start`, then parents, stopping after `project_root` (when
met) or the filesystem root. -/
def search_chain (start : String) (project_root : Option String) : List String :=
  search_chain_go project_root (start.length + 1) start

theorem search_chain_go_fuel_irrel (project_root : Option String) :
    ∀ (f1 : Nat) (current : String) (f2 : Nat),
    current.length < f1 → current.length < f2 →
    search_chain_go project_root f1 current = search_chain_go project_root f2 current := by
  intro f1
  induction f1 with
  | zero => intro current f2 h1 h2; omega
  | succ a ih =>
    intro current f2 h1 h2
    cases f2 with
    | zero => omega
    | succ b =>
      simp only [search_chain_go]
      by_cases hroot : project_root = some current
      · rw [if_pos hroot, if_pos hroot]
      · rw [if_neg hroot, if_neg hroot]
        cases hp : parentPath current with
        | none => rfl
        | some p =>
          have := parentPath_length_lt hp
          show current :: search_chain_go project_root a p
            = current :: search_chain_go project_root b p
          rw [ih p b (by omega) (by omega)]

/-! ## Specifier resolution pipeline (lib.rs `resolve_module_native`) -/

/-- Embeds `is_relative` (lib.rs 568-570). -/
def is_relative (spec : String) : Bool :=
  strStartsWith spec "./" || strStartsWith spec "../"

/-- Embeds `split_package_specifier` (lib.rs 572-588): splits a bare
specifier into package name and subpath; a scoped name keeps `@scope/pkg`
together; a scoped specifier without a `/` falls through to the plain split. -/
def split_package_specifier (spec : String) : String × String :=
  let viaScope : Option (String × String) :=
    if strStartsWith spec "@" then
      match splitOnceChar '/' (String.mk (spec.toList.drop 1)) with
      | some (scope, rest) =>
        match splitOnceChar '/' rest with
        | some (pkg, after) => some ("@" ++ scope ++ "/" ++ pkg, "./" ++ after)
        | none => some ("@" ++ scope ++ "/" ++ rest, ".")
      | none => none
    else none
  match viaScope with
  | some r => r
  | none =>
    match splitOnceChar '/' spec with
    | some (pkg, after) => (pkg, "./" ++ after)
    | none => (spec, ".")

/-- Embeds `ResolveOptions` (lib.rs 32-53). -/
structure ResolveOptions where
  conditions : List String
  extensions : List String
  prefer_cjs : Bool

/-- Embeds `ResolveOptions::default`. -/
def default_resolve_options : ResolveOptions :=
  { conditions := ["import", "default"],
    extensions := [".ts", ".tsx", ".js", ".mjs", ".cjs"],
    prefer_cjs := false }

/-- Embeds lib.rs 99-102: prepend `"require"` to the conditions when
`prefer_cjs` is set and `"require"` is not already present. -/
def merged_conditions (conditions : List String) (prefer_cjs : Bool) : List String :=
  if prefer_cjs && !(conditions.contains "require") then "require" :: conditions
  else conditions

/-- Embeds `ResolveRequest` (lib.rs 55-60). -/
structure ResolveRequest where
  specifier : String
  importer : String
  project_root : Option String

/-- Embeds `ModuleFormat` (lib.rs 62-68). -/
inductive ModuleFormat where
  | Esm
  | CommonJs
  | TypeDefinition
  | Unknown
deriving DecidableEq, Repr

/-- Embeds `ResolveResponse` (lib.rs 70-77). -/
structure ResolveResponse where
  resolved_path : Option String
  format : ModuleFormat
  matched_export : Option String
  package_json : Option String
  warnings : List String
deriving DecidableEq, Repr

/-- Embeds `ResolveError` (lib.rs 22-30). -/
inductive ResolveError where
  | EmptySpecifier
  | MissingImporter
  | PackageJson : String → ResolveError
deriving DecidableEq, Repr

/-- Embeds `detect_format` (lib.rs 745-759). -/
def detect_format (p : String) : ModuleFormat :=
  if strEndsWith p ".d.ts" || strEndsWith p ".d.mts" || strEndsWith p ".d.cts" then
    ModuleFormat.TypeDefinition
  else
    match pathExtension p with
    | some "cjs" => ModuleFormat.CommonJs
    | some "mjs" => ModuleFormat.Esm
    | some "cts" => ModuleFormat.CommonJs
    | some "mts" => ModuleFormat.Esm
    | some "ts" => ModuleFormat.Esm
    | some "tsx" => ModuleFormat.Esm
    | some "js" => ModuleFormat.Esm
    | some "jsx" => ModuleFormat.Esm
    | _ => ModuleFormat.Unknown

/-- The warning string of lib.rs 141-144; `{:?}` on a `Utf8PathBuf` renders
the path quoted (escapes elided: the importer directories in scope contain no
characters `Debug` would escape). -/
def mkNotFoundWarning (pkg_name importer_dir : String) : String :=
  "Package '" ++ pkg_name ++ "' not found from \"" ++ importer_dir ++ "\""

/-- The four mutable locals of `resolve_module_native` after the big
specifier branch (lib.rs 113-147): resolved path, `matched_export`,
`package_json` path, warnings. -/
structure ResolveCore where
  resolved : Option String
  matched_export : Option String
  package_json : Option String
  warnings : List String
deriving DecidableEq, Repr

/-- The found-package part of the bare branch (lib.rs 127-139): the
`package.json` path is recorded unconditionally; the manifest (if readable)
drives the exports map, whose hit is recorded as `matched_export` and
resolved through `resolve_path_like`; otherwise `resolve_pkg_main` runs. -/
def resolve_core_pkg (fs : FS) (pkg_dir subpath : String)
    (conditions extensions : List String) : ResolveCore :=
  let pkg_json := fs.readPkg pkg_dir
  match pkg_json.bind (fun pkg => resolve_exports pkg subpath pkg_dir conditions) with
  | some target =>
    { resolved := resolve_path_like fs pkg_dir target extensions,
      matched_export := some target,
      package_json := some (pjoin pkg_dir "package.json"), warnings := [] }
  | none =>
    { resolved := resolve_pkg_main fs pkg_dir pkg_json extensions,
      matched_export := none,
      package_json := some (pjoin pkg_dir "package.json"), warnings := [] }

/-- The specifier branch of `resolve_module_native` (lib.rs 117-147):
path-like specifiers go through `resolve_path_like` against the importer
directory; bare specifiers locate the package directory, record its
`package.json` path before the manifest is read, and resolve through the
exports map (recording `matched_export`) or the main-field fallback. -/
def resolve_core (fs : FS) (importer_dir : String) (project_root : Option String)
    (normalized : String) (conditions extensions : List String) : ResolveCore :=
  if is_relative normalized || strStartsWith normalized "/" then
    { resolved := resolve_path_like fs importer_dir normalized extensions,
      matched_export := none, package_json := none, warnings := [] }
  else
    let ps := split_package_specifier normalized
    match resolve_package_dir fs importer_dir project_root ps.1 with
    | some pkg_dir => resolve_core_pkg fs pkg_dir ps.2 conditions extensions
    | none =>
      { resolved := none, matched_export := none, package_json := none,
        warnings := [mkNotFoundWarning ps.1 importer_dir] }

/-- Embeds `resolve_module_native` (lib.rs 94-161): merge `prefer_cjs` into
the conditions, reject an all-whitespace specifier (`EmptySpecifier`) and an
importer with no parent (`MissingImporter`), normalize backslashes, run the
specifier branch, and derive the format from the resolved path. -/
def resolve_module_native (fs : FS) (req : ResolveRequest)
    (options : Option ResolveOptions) : Except ResolveError ResolveResponse :=
  let opts := options.getD default_resolve_options
  let conditions := merged_conditions opts.conditions opts.prefer_cjs
  if allWhitespace req.specifier then Except.error ResolveError.EmptySpecifier
  else
    match parentPath req.importer with
    | none => Except.error ResolveError.MissingImporter
    | some importer_dir =>
      let core := resolve_core fs importer_dir req.project_root
        (normalizeSlashes req.specifier) conditions opts.extensions
      Except.ok
        { resolved_path := core.resolved,
          format :=
            match core.resolved with
            | some p => detect_format p
            | none => ModuleFormat.Unknown,
          matched_export := core.matched_export,
          package_json := core.package_json,
          warnings := core.warnings }

/-- The inputs on which the specifier branch panics instead of returning:
a bare specifier whose package directory is found, whose manifest is readable
and carries an `exports` object, with a non-root subpath that misses the
exact key, and whose wildcard scan reaches an overlap-bracketing pattern —
there the slice `&key[prefix.len()..key.len()-suffix.len()]` (lib.rs 701)
has start > end and panics. This is the only panic site reachable on the
`resolve_module_native` paths (every other string operation on them is
bounds-safe), so outside this region the total embedding returns exactly
what the program returns. -/
def resolve_core_panics (fs : FS) (importer_dir : String)
    (project_root : Option String) (normalized : String)
    (conditions : List String) : Bool :=
  if is_relative normalized || strStartsWith normalized "/" then false
  else
    match resolve_package_dir fs importer_dir project_root
        (split_package_specifier normalized).1 with
    | none => false
    | some pkg_dir =>
      match fs.readPkg pkg_dir with
      | none => false
      | some pkg =>
        match jget pkg "exports" with
        | none => false
        | some exports =>
          if (split_package_specifier normalized).2 = "." then false
          else
            match exports with
            | .obj m =>
              match jlookup ("./" ++ trimDotSlash (split_package_specifier normalized).2) m with
              | some _ => false
              | none =>
                match star_scan conditions
                    ("./" ++ trimDotSlash (split_package_specifier normalized).2) m with
                | StarOutcome.panics => true
                | _ => false
            | _ => false

/-- The inputs on which `resolve_module_native` panics instead of returning
anything (the lib.rs 701 slice panic lifted through lib.rs 94-161: the error
cases for an empty specifier or a parentless importer are decided before the
specifier branch runs). -/
def resolve_module_panics (fs : FS) (req : ResolveRequest)
    (options : Option ResolveOptions) : Bool :=
  if allWhitespace req.specifier then false
  else
    match parentPath req.importer with
    | none => false
    | some importer_dir =>
      resolve_core_panics fs importer_dir req.project_root
        (normalizeSlashes req.specifier)
        (merged_conditions (options.getD default_resolve_options).conditions
          (options.getD default_resolve_options).prefer_cjs)

/-! ## Typings discovery (lib.rs `discover_typings_native`,
`discover_dts_in_dir_impl`) -/

/-- Embeds `TypingsResponse` (lib.rs 79-84). -/
structure TypingsResponse where
  package_name : String
  files : List String
  package_json : Option String
deriving DecidableEq, Repr

/-- The entry loop of `discover_dts_in_dir_impl` (lib.rs 369-398), with the
recursion into subdirectories abstracted as `recurse` (it is instantiated
with the next depth level) and `canRecurse` standing for `depth < MAX_DEPTH`.
Per entry: re-check the 50-file cap, push declaration files, recurse into
non-hidden non-`node_modules` subdirectories. -/
def discover_dts_entries (fs : FS)
    (recurse : String → List String → List String → List String × List String)
    (canRecurse : Bool) :
    List String → List String → List String → List String × List String
  | [], files, visited => (files, visited)
  | e :: rest, files, visited =>
    if 50 ≤ files.length then (files, visited)
    else if fs.isFile e then
      if strEndsWith (fileName e) ".d.ts" || strEndsWith (fileName e) ".d.mts"
          || strEndsWith (fileName e) ".d.cts" then
        discover_dts_entries fs recurse canRecurse rest (files ++ [e]) visited
      else discover_dts_entries fs recurse canRecurse rest files visited
    else if fs.isDir e && canRecurse then
      if fileName e ≠ "node_modules" && !(strStartsWith (fileName e) ".") then
        discover_dts_entries fs recurse canRecurse rest
          (recurse e files visited).1 (recurse e files visited).2
      else discover_dts_entries fs recurse canRecurse rest files visited
    else discover_dts_entries fs recurse canRecurse rest files visited

/-- Embeds `discover_dts_in_dir_impl` (lib.rs 349-399). The Rust code counts
`depth` upward against `MAX_DEPTH = 2`; here `budget = 3 - depth` counts the
remaining levels downward so the recursion is structural: budget 0 is the
`depth > MAX_DEPTH` early exit, and `depth < MAX_DEPTH` becomes
`1 ≤ budget` at the recursion site (which passes `budget - 1`). The 50-file
cap and the visited-set check mirror lib.rs 359-367. -/
def discover_dts_in_dir_impl (fs : FS) :
    Nat → String → List String → List String → List String × List String
  | 0, _, files, visited => (files, visited)
  | budget + 1, dir, files, visited =>
    if 50 ≤ files.length then (files, visited)
    else if dir ∈ visited then (files, visited)
    else
      discover_dts_entries fs (discover_dts_in_dir_impl fs budget) (decide (1 ≤ budget))
        (fs.readDir dir) files (dir :: visited)

/-- Embeds `discover_dts_in_dir` (lib.rs 344-346): entry at depth 0, i.e.
budget 3. -/
def discover_dts_in_dir (fs : FS) (dir : String) (files visited : List String) :
    List String × List String :=
  discover_dts_in_dir_impl fs 3 dir files visited

/-- The repeated `files.push(p); if let Some(parent) = p.parent() {
discover_dts_in_dir(parent, ..) }` pattern of sources 1-3 in
`discover_typings_native`. -/
def push_and_scan_parent (fs : FS) (p : String) (st : List String × List String) :
    List String × List String :=
  let files := st.1 ++ [p]
  match parentPath p with
  | some parent => discover_dts_in_dir fs parent files st.2
  | none => (files, st.2)

/-- The `if <candidate>.is_file() { push + sibling scan }` guard wrapped
around `push_and_scan_parent` at each candidate site. -/
def consider_candidate (fs : FS) (p : String) (st : List String × List String) :
    List String × List String :=
  if fs.isFile p then push_and_scan_parent fs p st else st

/-- Sources 1 and 2 of `discover_typings_native` (lib.rs 181-211), run only
when the manifest parsed: the types-prioritized root export, then the
top-level `types` / `typings` field. -/
def typings_from_manifest (fs : FS) (pkg_dir : String) (pkg_json : Json)
    (st : List String × List String) : List String × List String :=
  let st :=
    match jget pkg_json "exports" with
    | some exports =>
      match resolve_exports_types exports "." pkg_dir with
      | some types_path => consider_candidate fs types_path st
      | none => st
    | none => st
  match ((jget pkg_json "types").or (jget pkg_json "typings")).bind jasStr with
  | some types => consider_candidate fs (pjoin pkg_dir types) st
  | none => st

/-- Source 3's fixed candidate list (lib.rs 214-221). -/
def typings_fallback_candidates : List String :=
  ["index.d.ts", "index.d.mts", "dist/index.d.ts", "lib/index.d.ts",
   "types/index.d.ts", "build/index.d.ts"]

/-- Source 3 of `discover_typings_native` (lib.rs 213-230). -/
def typings_from_fallbacks (fs : FS) (pkg_dir : String)
    (st : List String × List String) : List String × List String :=
  typings_fallback_candidates.foldl
    (fun st c => consider_candidate fs (pjoin pkg_dir c) st) st

/-- Source 4 of `discover_typings_native` (lib.rs 233-246): the synthetic
`@types/*` shadow package; on a hit the whole `@types` directory is scanned
(not the parent) and the manifest path is recorded only if still unset. -/
def typings_from_at_types (fs : FS) (project_root package_name : String)
    (st : List String × List String) (pkg_json_path : Option String) :
    List String × Option String :=
  match resolve_package_dir fs project_root (some project_root)
      ("@types/" ++ replaceSlashUnderscores (trimLeadingAt package_name)) with
  | some types_dir =>
    if fs.isFile (pjoin types_dir "index.d.ts") then
      ((discover_dts_in_dir fs types_dir (st.1 ++ [pjoin types_dir "index.d.ts"]) st.2).1,
       pkg_json_path.or (some (pjoin types_dir "package.json")))
    else (st.1, pkg_json_path)
  | none => (st.1, pkg_json_path)

/-- Sources 1-3 of `discover_typings_native` (lib.rs 178-231), starting from
empty `files` / `visited`: run only when the package directory is found, in
which case its `package.json` path is recorded. -/
def typings_stage (fs : FS) (package_name project_root : String) :
    (List String × List String) × Option String :=
  match resolve_package_dir fs project_root (some project_root) package_name with
  | some pkg_dir =>
    (typings_from_fallbacks fs pkg_dir
      (match fs.readPkg pkg_dir with
       | some pkg_json => typings_from_manifest fs pkg_dir pkg_json ([], [])
       | none => ([], [])),
     some (pjoin pkg_dir "package.json"))
  | none => ((([] : List String), ([] : List String)), (none : Option String))

/-- Embeds `discover_typings_native` (lib.rs 170-256): merge the four
sources, then sort and deduplicate. -/
def discover_typings_native (fs : FS) (package_name project_root : String) :
    TypingsResponse :=
  { package_name := package_name,
    files := dedupConsec (sortStrings
      (typings_from_at_types fs project_root package_name
        (typings_stage fs package_name project_root).1
        (typings_stage fs package_name project_root).2).1),
    package_json :=
      (typings_from_at_types fs project_root package_name
        (typings_stage fs package_name project_root).1
        (typings_stage fs package_name project_root).2).2 }

/-! ## Module analyzer default-export arms (lib.rs `GraphVisitor`) -/

/-- Embeds the payloads of SWC `ModuleDecl::ExportDefaultDecl` /
`ExportDefaultExpr` as matched by `GraphVisitor::visit_module_item`
(lib.rs 510-531). In SWC a default-exported class or function carries an
optional identifier, while `TsInterfaceDecl` has a mandatory identifier
(`id: Ident`), recorded here so "named" is meaningful; a default-exported
expression has no declared identifier. -/
inductive DefaultExportItem where
  | classDecl : Option String → DefaultExportItem
  | fnDecl : Option String → DefaultExportItem
  | tsInterfaceDecl : String → DefaultExportItem
  | exprDecl : DefaultExportItem
deriving DecidableEq, Repr

/-- The token inserted into `exports` by the `ExportDefaultDecl` /
`ExportDefaultExpr` arms of `GraphVisitor::visit_module_item`
(lib.rs 510-531): a class or function contributes its identifier when it has
one and `"default"` otherwise; the `TsInterfaceDecl` arm matches with `_`
and always contributes `"default"`; an expression contributes `"default"`. -/
def default_export_token : DefaultExportItem → String
  | .classDecl (some i) => i
  | .classDecl none => "default"
  | .fnDecl (some i) => i
  | .fnDecl none => "default"
  | .tsInterfaceDecl _ => "default"
  | .exprDecl => "default"

/-! ## Shared lemmas -/

theorem firstFile_isFile {fs : FS} : ∀ {l : List String} {p : String},
    firstFile fs l = some p → fs.isFile p = true := by
  intro l
  induction l with
  | nil => intro p h; simp [firstFile] at h
  | cons c rest ih =>
    intro p h
    rw [firstFile] at h
    split at h
    · obtain rfl := Option.some.inj h
      assumption
    · exact ih h

theorem firstFile_append {fs : FS} : ∀ (l1 l2 : List String),
    firstFile fs (l1 ++ l2) = (firstFile fs l1).or (firstFile fs l2) := by
  intro l1 l2
  induction l1 with
  | nil => simp [firstFile]
  | cons c rest ih =>
    simp only [List.cons_append, firstFile]
    split
    · simp [Option.or]
    · exact ih

/-! ## C4 -/

/-- C4 counterexample: the claim says a *named* default-export declaration
contributes its declared identifier, covering TypeScript interfaces. But the
`DefaultDecl::TsInterfaceDecl(_)` arm (lib.rs 525-527) discards the
mandatory interface name: `export default interface Foo {}` contributes
`"default"`, not `"Foo"`. -/
theorem c4_interface_counterexample :
    default_export_token (DefaultExportItem.tsInterfaceDecl "Foo") = "default"
    ∧ ("default" : String) ≠ "Foo" := by decide

/-- C4 amended: for a default-exported class or function the token is the
declared identifier when present and `"default"` otherwise; a default-export
interface always contributes `"default"`, regardless of its (mandatory)
name; a default-export expression contributes `"default"`. -/
theorem c4_default_token_amended :
    (∀ n : String, default_export_token (DefaultExportItem.classDecl (some n)) = n)
    ∧ default_export_token (DefaultExportItem.classDecl none) = "default"
    ∧ (∀ n : String, default_export_token (DefaultExportItem.fnDecl (some n)) = n)
    ∧ default_export_token (DefaultExportItem.fnDecl none) = "default"
    ∧ (∀ n : String, default_export_token (DefaultExportItem.tsInterfaceDecl n) = "default")
    ∧ default_export_token DefaultExportItem.exprDecl = "default" :=
  ⟨fun _ => rfl, rfl, fun _ => rfl, rfl, fun _ => rfl, rfl⟩

/-! ## C7 -/

/-- The trial order stated by the spec: the unmodified target, then
`target + ext` in caller order, then (when the target is a directory)
`target/index + ext` in caller order. -/
def extension_trial_list (fs : FS) (target : String) (extensions : List String) :
    List String :=
  target :: (extensions.map (fun e => target ++ e)
    ++ (if fs.isDir target then extensions.map (fun e => pjoin target ("index" ++ e))
        else []))

theorem resolve_with_extensions_eq_trial (fs : FS) (target : String)
    (extensions : List String) :
    resolve_with_extensions fs target extensions
      = firstFile fs (extension_trial_list fs target extensions) := by
  unfold resolve_with_extensions extension_trial_list
  by_cases hf : fs.isFile target
  · simp [firstFile, hf]
  · simp only [firstFile, hf, if_false, Bool.false_eq_true]
    rw [firstFile_append]
    cases hext : firstFile fs (extensions.map (fun e => target ++ e)) with
    | some c => simp [Option.or]
    | none =>
      simp only [Option.or]
      by_cases hd : fs.isDir target
      · rw [if_pos hd, if_pos hd]
      · rw [if_neg hd, if_neg hd]
        simp [firstFile]

/-- C7: extension/index probing returns `none` or an existing regular file,
and its trial order is exactly: the unmodified target, then `target + ext`
for each extension in caller order, then `target/index + ext` for each
extension in caller order when the target is a directory — first existing
file wins. -/
theorem c7_extension_probe_spec (fs : FS) (target : String) (extensions : List String) :
    resolve_with_extensions fs target extensions
      = firstFile fs (extension_trial_list fs target extensions)
    ∧ ∀ p, resolve_with_extensions fs target extensions = some p →
        fs.isFile p = true := by
  refine ⟨resolve_with_extensions_eq_trial fs target extensions, fun p hp => ?_⟩
  rw [resolve_with_extensions_eq_trial] at hp
  exact firstFile_isFile hp

/-! ## C5 -/

/-- C5: with an exports condition object carrying string targets for
`"import"`, `"require"` and `"default"`, the default options (conditions
`["import","default"]`, `prefer_cjs = false`) select the `"import"` target,
and `prefer_cjs = true` (which prepends `"require"`) selects the
`"require"` target. -/
theorem c5_conditions_select (m : List (String × Json)) (a b c : String)
    (hi : jlookup "import" m = some (Json.str a))
    (hr : jlookup "require" m = some (Json.str b))
    (hd : jlookup "default" m = some (Json.str c)) :
    select_export_target (Json.obj m)
        (merged_conditions default_resolve_options.conditions
          default_resolve_options.prefer_cjs) = some a
    ∧ select_export_target (Json.obj m)
        (merged_conditions default_resolve_options.conditions true) = some b := by
  constructor
  · have h1 : merged_conditions default_resolve_options.conditions
        default_resolve_options.prefer_cjs = ["import", "default"] := by decide
    rw [h1, select_export_target_obj]
    simp only [selCondsGo, hi, select_export_target_str]
  · have h2 : merged_conditions default_resolve_options.conditions true
        = ["require", "import", "default"] := by decide
    rw [h2, select_export_target_obj]
    simp only [selCondsGo, hr, select_export_target_str]

/-- C5 witness at the shape used by the crate's own integration test. -/
theorem c5_conditions_select_witness :
    select_export_target (Json.obj [("import", Json.str "./esm.js"),
        ("require", Json.str "./cjs.js"), ("default", Json.str "./esm.js")])
      (merged_conditions default_resolve_options.conditions
        default_resolve_options.prefer_cjs) = some "./esm.js"
    ∧ select_export_target (Json.obj [("import", Json.str "./esm.js"),
        ("require", Json.str "./cjs.js"), ("default", Json.str "./esm.js")])
      (merged_conditions default_resolve_options.conditions true) = some "./cjs.js" :=
  c5_conditions_select _ "./esm.js" "./cjs.js" "./esm.js" rfl rfl rfl

/-! ## C10 -/

/-- C10: for a non-root subpath, the types-prioritized exports resolver does
no wildcard matching — the result depends only on the exact key
`"./<subpath>"` and, when that is absent, the root `"."` entry (pattern keys
in `m` are never consulted); contrast with the general resolver, which does
match wildcards under the same conditions. -/
theorem c10_types_exact_only (m : List (String × Json)) (subpath dir : String)
    (hsub : subpath ≠ ".") :
    (jlookup ("./" ++ trimDotSlash subpath) m = none → jlookup "." m = none →
       resolve_exports_types (Json.obj m) subpath dir = none)
    ∧ (∀ v, jlookup ("./" ++ trimDotSlash subpath) m = none → jlookup "." m = some v →
       resolve_exports_types (Json.obj m) subpath dir =
         (select_export_target_with_conditions v types_conditions).map
           (fun t => pjoin dir (trimDotSlash t)))
    ∧ (∀ v, jlookup ("./" ++ trimDotSlash subpath) m = some v →
       resolve_exports_types (Json.obj m) subpath dir =
         (select_export_target_with_conditions v types_conditions).map
           (fun t => pjoin dir (trimDotSlash t)))
    ∧ (resolve_exports_types
         (Json.obj [("./feature/*", Json.str "./src/feature/*.d.ts")])
         "feature/x" "/p" = none
       ∧ resolve_exports
           (Json.obj [("exports",
             Json.obj [("./feature/*", Json.str "./src/feature/*.d.ts")])])
           "feature/x" "/p" types_conditions = some "/p/src/feature/x.d.ts") := by
  refine ⟨?_, ?_, ?_, by constructor <;> rfl⟩
  · intro hk hroot
    simp [resolve_exports_types, if_neg hsub, hk, hroot]
  · intro v hk hroot
    simp [resolve_exports_types, if_neg hsub, hk, hroot]
  · intro v hk
    simp [resolve_exports_types, if_neg hsub, hk]

/-- C10 witness: with only an unrelated exact key present, a non-root
subpath resolves to `none` (no wildcard attempt, no root fallback). -/
theorem c10_types_exact_only_witness :
    resolve_exports_types (Json.obj [("./a", Json.str "./a.d.ts")]) "b" "/p" = none :=
  (c10_types_exact_only [("./a", Json.str "./a.d.ts")] "b" "/p" (by decide)).1 rfl rfl

/-! ## C6 -/

/-- C6 counterexample: against the exports object
`{"./*": {}, "./a*": "./t/*.js"}` and subpath `"ab"`, the first pattern key
in iteration order, `"./*"`, brackets the requested key `"./ab"`
syntactically (without overlap, so no lib.rs 701 panic is in play), but its
value (an empty condition object) selects no target; the claim says only
that first syntactically matching key is used, so no target would be
produced — yet the code's `?` inside the `find_map` closure skips it
(`star_step` is `miss`) and the second key `"./a*"` supplies the
result. -/
theorem c6_first_match_counterexample :
    resolve_exports
        (Json.obj [("exports",
          Json.obj [("./*", Json.obj []), ("./a*", Json.str "./t/*.js")])])
        "ab" "/p" ["import", "default"] = some "/p/t/b.js"
    ∧ jlookup "./ab" [("./*", Json.obj []), ("./a*", Json.str "./t/*.js")] = none
    ∧ starSplit "./*" = some ("./", "")
    ∧ strStartsWith "./ab" "./" = true
    ∧ strEndsWith "./ab" "" = true
    ∧ select_export_target (Json.obj []) ["import", "default"] = none
    ∧ star_step ["import", "default"] "./ab" "./*" (Json.obj []) = StarOutcome.miss
    ∧ star_scan ["import", "default"] "./ab"
        [("./*", Json.obj []), ("./a*", Json.str "./t/*.js")]
        = StarOutcome.found "./t/b.js" := by
  refine ⟨rfl, rfl, rfl, rfl, rfl, rfl, rfl, rfl⟩

/-- C6 amended: for a non-root subpath the exact key `"./<subpath>"` is
tried first; if absent, the pattern keys are scanned in object iteration
order, each split at its first `*` into a prefix and suffix; the first key
whose halves bracket the requested key decides the scan, in one of two ways:
if prefix and suffix overlap in the key (their lengths sum to more than the
key's) the resolver panics computing the middle slice (lib.rs 701, before
the value is even consulted) and nothing is returned — otherwise, if its
value yields a target under the conditions, the captured middle is
substituted for every `*` in that target and the key wins, and if its value
selects no target the key is skipped (the `?` on lib.rs 702) and later keys
are still tried. No scoring between candidate patterns occurs. The three
disjuncts below are the no-event, first-found and first-panic cases of the
scan; in the panic case nothing is asserted about the (placeholder) value of
the total model. -/
theorem c6_wildcard_amended (pkg : Json) (m : List (String × Json))
    (subpath dir : String) (conds : List String)
    (hexp : jget pkg "exports" = some (Json.obj m)) (hsub : subpath ≠ ".") :
    (∀ v, jlookup ("./" ++ trimDotSlash subpath) m = some v →
      resolve_exports pkg subpath dir conds
        = (select_export_target v conds).map (fun t => pjoin dir (trimDotSlash t)))
    ∧ (jlookup ("./" ++ trimDotSlash subpath) m = none →
        (star_scan conds ("./" ++ trimDotSlash subpath) m = StarOutcome.miss
           ∧ (∀ pv ∈ m, star_step conds ("./" ++ trimDotSlash subpath) pv.1 pv.2
               = StarOutcome.miss)
           ∧ resolve_exports pkg subpath dir conds = none)
        ∨ (∃ t l1 pv l2, m = l1 ++ pv :: l2
            ∧ star_step conds ("./" ++ trimDotSlash subpath) pv.1 pv.2
                = StarOutcome.found t
            ∧ (∀ qv ∈ l1, star_step conds ("./" ++ trimDotSlash subpath) qv.1 qv.2
                = StarOutcome.miss)
            ∧ resolve_exports pkg subpath dir conds
                = some (pjoin dir (trimDotSlash t)))
        ∨ (∃ l1 pv l2, m = l1 ++ pv :: l2
            ∧ star_step conds ("./" ++ trimDotSlash subpath) pv.1 pv.2
                = StarOutcome.panics
            ∧ (∀ qv ∈ l1, star_step conds ("./" ++ trimDotSlash subpath) qv.1 qv.2
                = StarOutcome.miss)
            ∧ star_scan conds ("./" ++ trimDotSlash subpath) m = StarOutcome.panics))
    ∧ star_step conds "./feature/x" "./feature/*" (Json.str "./src/feature/*.js")
        = StarOutcome.found "./src/feature/x.js" := by
  refine ⟨?_, ?_, rfl⟩
  · intro v hk
    simp [resolve_exports, hexp, if_neg hsub, hk]
  · intro hk
    rcases star_scan_first_event conds ("./" ++ trimDotSlash subpath) m with
      ⟨hnone, hall⟩ | ⟨r, l1, pv, l2, hsplit, hstep, hrne, hl1, hscan⟩
    · exact Or.inl ⟨hnone, hall,
        by simp [resolve_exports, hexp, if_neg hsub, hk, hnone]⟩
    · cases r with
      | miss => exact absurd rfl hrne
      | found t =>
        refine Or.inr (Or.inl ⟨t, l1, pv, l2, hsplit, hstep, hl1, ?_⟩)
        simp [resolve_exports, hexp, if_neg hsub, hk, hscan]
      | panics =>
        exact Or.inr (Or.inr ⟨l1, pv, l2, hsplit, hstep, hl1, hscan⟩)

/-- C6 amended witness: exact-key priority at a concrete input. -/
theorem c6_wildcard_amended_witness :
    resolve_exports (Json.obj [("exports", Json.obj [("./a", Json.str "./b.js")])])
        "a" "/p" ["import", "default"]
      = (select_export_target (Json.str "./b.js") ["import", "default"]).map
          (fun t => pjoin "/p" (trimDotSlash t)) :=
  (c6_wildcard_amended (Json.obj [("exports", Json.obj [("./a", Json.str "./b.js")])])
    [("./a", Json.str "./b.js")] "a" "/p" ["import", "default"] rfl (by decide)).1
    (Json.str "./b.js") rfl

/-! ## C8 -/

theorem resolve_package_dir_unfold (fs : FS) (start : String)
    (project_root : Option String) (package : String) :
    resolve_package_dir fs start project_root package =
      (if existsPath fs (pjoin (pjoin start "node_modules") package) then
        some (pjoin (pjoin start "node_modules") package)
      else if project_root = some start then none
      else
        match parentPath start with
        | none => none
        | some p => resolve_package_dir fs p project_root package) := by
  show resolve_package_dir_go fs project_root package (start.length + 1) start = _
  rw [resolve_package_dir_go]
  cases existsPath fs (pjoin (pjoin start "node_modules") package) with
  | true => rfl
  | false =>
    simp only [Bool.false_eq_true, if_false]
    by_cases hroot : project_root = some start
    · rw [if_pos hroot, if_pos hroot]
    · rw [if_neg hroot, if_neg hroot]
      cases hp : parentPath start with
      | none => rfl
      | some p =>
        have := parentPath_length_lt hp
        exact resolve_package_dir_go_fuel_irrel fs project_root package
          start.length p (p.length + 1) (by omega) (by omega)

theorem search_chain_unfold (start : String) (project_root : Option String) :
    search_chain start project_root =
      start ::
        (if project_root = some start then []
         else
           match parentPath start with
           | none => []
           | some p => search_chain p project_root) := by
  show search_chain_go project_root (start.length + 1) start = _
  rw [search_chain_go]
  by_cases hroot : project_root = some start
  · rw [if_pos hroot, if_pos hroot]
  · rw [if_neg hroot, if_neg hroot]
    cases hp : parentPath start with
    | none => rfl
    | some p =>
      have := parentPath_length_lt hp
      show start :: search_chain_go project_root start.length p = _
      rw [search_chain_go_fuel_irrel project_root start.length p (p.length + 1)
        (by omega) (by omega)]
      rfl

theorem resolve_package_dir_none_iff (fs : FS) (project_root : Option String)
    (package : String) :
    ∀ (n : Nat) (start : String), start.length < n →
    (resolve_package_dir fs start project_root package = none ↔
      ∀ a ∈ search_chain start project_root,
        existsPath fs (pjoin (pjoin a "node_modules") package) = false) := by
  intro n
  induction n using Nat.strong_induction_on with
  | _ n ih =>
    intro start hlen
    rw [resolve_package_dir_unfold, search_chain_unfold]
    cases hex : existsPath fs (pjoin (pjoin start "node_modules") package) with
    | true =>
      simp only [if_pos]
      constructor
      · intro h; simp at h
      · intro hall
        exact absurd (hall start (by simp)) (by simp [hex])
    | false =>
      simp only [Bool.false_eq_true, if_false]
      by_cases hroot : project_root = some start
      · rw [if_pos hroot, if_pos hroot]
        constructor
        · intro _ a ha
          rcases List.mem_cons.mp ha with rfl | hmem
          · exact hex
          · simp at hmem
        · intro _; rfl
      · rw [if_neg hroot, if_neg hroot]
        cases hp : parentPath start with
        | none =>
          constructor
          · intro _ a ha
            rcases List.mem_cons.mp ha with rfl | hmem
            · exact hex
            · simp at hmem
          · intro _; rfl
        | some p =>
          have hplt := parentPath_length_lt hp
          rw [ih start.length (by omega) p (by omega)]
          constructor
          · intro hall a ha
            rcases List.mem_cons.mp ha with rfl | hmem
            · exact hex
            · exact hall a hmem
          · intro hall a ha
            exact hall a (by simp [ha])

theorem resolve_package_dir_some_shape (fs : FS) (project_root : Option String)
    (package : String) :
    ∀ (n : Nat) (start : String), start.length < n →
    ∀ d, resolve_package_dir fs start project_root package = some d →
      ∃ a ∈ search_chain start project_root,
        d = pjoin (pjoin a "node_modules") package := by
  intro n
  induction n using Nat.strong_induction_on with
  | _ n ih =>
    intro start hlen d hd
    rw [resolve_package_dir_unfold] at hd
    rw [search_chain_unfold]
    cases hex : existsPath fs (pjoin (pjoin start "node_modules") package) with
    | true =>
      rw [if_pos (by simp [hex])] at hd
      exact ⟨start, by simp, (Option.some.inj hd).symm⟩
    | false =>
      rw [if_neg (by simp [hex])] at hd
      by_cases hroot : project_root = some start
      · rw [if_pos hroot] at hd
        simp at hd
      · rw [if_neg hroot] at hd
        cases hp : parentPath start with
        | none => rw [hp] at hd; simp at hd
        | some p =>
          rw [hp] at hd
          have hplt := parentPath_length_lt hp
          obtain ⟨a, ha, rfl⟩ := ih start.length (by omega) p (by omega) d hd
          exact ⟨a, by simp [if_neg hroot, ha], rfl⟩

theorem search_chain_within (r : String) :
    ∀ (n : Nat) (start : String), start.length < n →
    r ∈ search_chain start none →
    ∀ a ∈ search_chain start (some r), r ∈ search_chain a none := by
  intro n
  induction n using Nat.strong_induction_on with
  | _ n ih =>
    intro start hlen hr a ha
    rw [search_chain_unfold start (some r)] at ha
    rcases List.mem_cons.mp ha with rfl | hmem
    · exact hr
    · by_cases hroot : (some r : Option String) = some start
      · rw [if_pos hroot] at hmem
        simp at hmem
      · rw [if_neg hroot] at hmem
        cases hp : parentPath start with
        | none => rw [hp] at hmem; simp at hmem
        | some p =>
          rw [hp] at hmem
          have hplt := parentPath_length_lt hp
          have hrp : r ∈ search_chain p none := by
            rw [search_chain_unfold start none] at hr
            rcases List.mem_cons.mp hr with rfl | hmem2
            · exact (hroot rfl).elim
            · simpa [hp] using hmem2
          exact ih start.length (by omega) p (by omega) hrp a hmem

/-- C8: the upward `node_modules` search probes exactly the directories of
`search_chain` (start, then parents, cut off at `project_root` when met,
else ending at the filesystem root — a finite list, so the loop terminates):
it returns `none` iff no probed directory holds the package; any returned
directory is the probe of a chain member; and when `project_root` is an
ancestor-or-self of the start directory, every probed directory still has
`project_root` as ancestor-or-self — the search never crosses above it. -/
theorem c8_package_locator_spec (fs : FS) (start : String)
    (project_root : Option String) (package : String) :
    (resolve_package_dir fs start project_root package = none ↔
      ∀ a ∈ search_chain start project_root,
        existsPath fs (pjoin (pjoin a "node_modules") package) = false)
    ∧ (∀ d, resolve_package_dir fs start project_root package = some d →
        ∃ a ∈ search_chain start project_root,
          d = pjoin (pjoin a "node_modules") package)
    ∧ (∀ r, project_root = some r → r ∈ search_chain start none →
        ∀ a ∈ search_chain start (some r), r ∈ search_chain a none) :=
  ⟨resolve_package_dir_none_iff fs project_root package (start.length + 1) start
      (by omega),
   resolve_package_dir_some_shape fs project_root package (start.length + 1) start
      (by omega),
   fun r hr => hr ▸ search_chain_within r (start.length + 1) start (by omega)⟩

/-- C8 witness: an absent package yields `none` on a concrete chain bounded
by the project root. -/
theorem c8_package_locator_spec_witness :
    resolve_package_dir
      (FS.mk (fun _ => false) (fun _ => false) (fun _ => []) (fun _ => none))
      "/a/b" (some "/a") "p" = none :=
  (c8_package_locator_spec
      (FS.mk (fun _ => false) (fun _ => false) (fun _ => []) (fun _ => none))
      "/a/b" (some "/a") "p").1.mpr (by decide)

/-! ## Shared lemma for the non-error path of `resolve_module_native` -/

/-- Unfolding lemma for the embedded model: past the two error gates it
produces the `Ok` record built from `resolve_core`. This is a fact about the
total embedding; it describes the program's return value only on runs that
return, i.e. when `resolve_module_panics` is `false` — the claim theorems
that conclude an `Ok` result all carry that hypothesis. -/
theorem resolve_module_native_ok (fs : FS) (req : ResolveRequest)
    (options : Option ResolveOptions) (d : String)
    (hws : allWhitespace req.specifier = false)
    (himp : parentPath req.importer = some d) :
    resolve_module_native fs req options =
      (let core := resolve_core fs d req.project_root (normalizeSlashes req.specifier)
          (merged_conditions (options.getD default_resolve_options).conditions
            (options.getD default_resolve_options).prefer_cjs)
          (options.getD default_resolve_options).extensions
       Except.ok
        { resolved_path := core.resolved,
          format :=
            match core.resolved with
            | some p => detect_format p
            | none => ModuleFormat.Unknown,
          matched_export := core.matched_export,
          package_json := core.package_json,
          warnings := core.warnings }) := by
  unfold resolve_module_native
  rw [hws]
  simp only [Bool.false_eq_true, if_false, himp]

theorem resolve_exports_some_shape {pkg : Json} {sub dirp : String}
    {conds : List String} {r : String}
    (h : resolve_exports pkg sub dirp conds = some r) :
    ∃ raw, r = pjoin dirp (trimDotSlash raw) := by
  unfold resolve_exports at h
  cases hexp : jget pkg "exports" with
  | none => rw [hexp] at h; simp at h
  | some exports =>
    rw [hexp] at h
    simp only [Option.map_eq_some'] at h
    obtain ⟨raw, -, hraw⟩ := h
    exact ⟨raw, hraw.symm⟩

/-! ## C3 -/

/-- The trivially empty filesystem. -/
def emptyFS : FS :=
  { isFile := fun _ => false, isDir := fun _ => false,
    readDir := fun _ => [], readPkg := fun _ => none }

/-- A filesystem whose only package, `p` at `/r/node_modules/p`, carries the
exports map `{"./a*a": "./x.js"}`: resolving `"p/a"` builds the key `"./a"`,
the pattern's prefix `"./a"` and suffix `"a"` both bracket it but overlap
(3 < 3 + 1), and the Rust slice `&key[3..2]` at lib.rs 701 panics. -/
def fsPanic : FS :=
  { isFile := fun _ => false,
    isDir := fun p => p = "/r" || p = "/r/node_modules" || p = "/r/node_modules/p"
      || p = "/r/src",
    readDir := fun _ => [],
    readPkg := fun p =>
      if p = "/r/node_modules/p" then
        some (Json.obj [("exports", Json.obj [("./a*a", Json.str "./x.js")])])
      else none }

/-- C3 counterexample, refuting the claim on two grounds. First, resolving
the relative specifier `"./missing"` that exists nowhere returns `Ok` with
`resolved_path = none` and an *empty* `warnings` list — the claim that every
unresolvable condition comes "together with a human-readable warning string
in warnings" fails; only the package-not-found branch (lib.rs 141-144)
pushes a warning. Second, "never a hard error" fails outright: on `fsPanic`
the specifier `"p/a"` drives the wildcard scan into an overlap-bracketing
pattern and the program panics at the lib.rs 701 slice — a hard crash that
returns neither `Ok` nor `Err` (`resolve_module_panics` marks the run). -/
theorem c3_warning_counterexample :
    (resolve_module_native emptyFS
        { specifier := "./missing", importer := "/r/a.ts", project_root := none } none =
      Except.ok
        { resolved_path := none, format := ModuleFormat.Unknown,
          matched_export := none, package_json := none, warnings := [] })
    ∧ resolve_module_panics fsPanic
        { specifier := "p/a", importer := "/r/src/a.ts", project_root := none } none
        = true := ⟨rfl, rfl⟩

/-- C3 amended: `resolve_module_native` returns an error only for an
all-whitespace specifier (`EmptySpecifier`) or an importer without a parent
(`MissingImporter`); in every other case in which it returns at all it
returns `Ok` — but two caveats hold: the warning accompanying an unresolved
path is optional (it is emitted only when the package directory is not
found), and the function does not always return: it panics (lib.rs 701)
when the wildcard export scan reaches a pattern whose prefix and suffix
overlap in the requested key, the region `resolve_module_panics` describes
and the second conjunct's hypothesis excludes. -/
theorem c3_error_taxonomy_amended (fs : FS) (req : ResolveRequest)
    (options : Option ResolveOptions) :
    (∀ e, resolve_module_native fs req options = Except.error e →
      (e = ResolveError.EmptySpecifier ∧ allWhitespace req.specifier = true)
      ∨ (e = ResolveError.MissingImporter ∧ parentPath req.importer = none))
    ∧ (allWhitespace req.specifier = false →
        ∀ d, parentPath req.importer = some d →
          resolve_module_panics fs req options = false →
          ∃ resp, resolve_module_native fs req options = Except.ok resp) := by
  constructor
  · intro e he
    cases hws : allWhitespace req.specifier with
    | true =>
      left
      refine ⟨?_, rfl⟩
      unfold resolve_module_native at he
      rw [hws] at he
      simp at he
      exact he.symm
    | false =>
      cases himp : parentPath req.importer with
      | none =>
        right
        refine ⟨?_, rfl⟩
        unfold resolve_module_native at he
        rw [hws] at he
        simp only [Bool.false_eq_true, if_false, himp] at he
        exact (Except.error.inj he).symm
      | some d =>
        rw [resolve_module_native_ok fs req options d hws himp] at he
        simp at he
  · intro hws d himp _
    exact ⟨_, resolve_module_native_ok fs req options d hws himp⟩

/-- C3 witness: a concrete non-error, non-panicking resolution. -/
theorem c3_error_taxonomy_amended_witness :
    ∃ resp, resolve_module_native emptyFS
        { specifier := "x", importer := "/r/a.ts", project_root := none } none =
      Except.ok resp :=
  (c3_error_taxonomy_amended emptyFS
      { specifier := "x", importer := "/r/a.ts", project_root := none } none).2
    (by decide) "/r" (by decide) (by decide)

/-! ## C1 -/

/-- Filesystem for the C1 counterexample: package `p` under `/r/node_modules`
whose manifest maps the root export to `"./dist/index.js"`. -/
def fsC1 : FS :=
  { isFile := fun p => p = "/r/node_modules/p/dist/index.js",
    isDir := fun p =>
      p ∈ (["/r", "/r/node_modules", "/r/node_modules/p",
            "/r/node_modules/p/dist"] : List String),
    readDir := fun _ => [],
    readPkg := fun p =>
      if p = "/r/node_modules/p" then
        some (Json.obj [("exports", Json.str "./dist/index.js")])
      else none }

/-- C1 counterexample: the exports map selects the raw target
`"./dist/index.js"`, but the returned `matched_export` is the *joined* path
`"/r/node_modules/p/dist/index.js"` — `resolve_exports` (lib.rs 712-713)
joins onto the package directory before `resolve_module_native` records
`matched_export` (lib.rs 133-134), contradicting the claim that the raw
pre-join target string is recorded. -/
theorem c1_matched_export_counterexample :
    resolve_module_native fsC1
        { specifier := "p", importer := "/r/src/a.ts", project_root := none } none =
      Except.ok
        { resolved_path := some "/r/node_modules/p/dist/index.js",
          format := ModuleFormat.Esm,
          matched_export := some "/r/node_modules/p/dist/index.js",
          package_json := some "/r/node_modules/p/package.json",
          warnings := [] }
    ∧ ("/r/node_modules/p/dist/index.js" : String) ≠ "./dist/index.js" :=
  ⟨rfl, by decide⟩

/-- C1 amended: on every run that returns (i.e. outside the lib.rs 701
panic region, `resolve_module_panics … = false`), whenever the exports map
yields a target for a bare specifier, `matched_export` records the output of
`resolve_exports` — i.e. the target already joined onto the package
directory (`pjoin pkg_dir (trimDotSlash raw)`), not the raw pre-join target
string. -/
theorem c1_matched_export_amended (fs : FS) (req : ResolveRequest)
    (options : Option ResolveOptions) (d pkg_dir : String)
    (hws : allWhitespace req.specifier = false)
    (himp : parentPath req.importer = some d)
    (hrel : is_relative (normalizeSlashes req.specifier) = false)
    (habs : strStartsWith (normalizeSlashes req.specifier) "/" = false)
    (hpkg : resolve_package_dir fs d req.project_root
        (split_package_specifier (normalizeSlashes req.specifier)).1 = some pkg_dir)
    (hnp : resolve_module_panics fs req options = false) :
    ∃ resp, resolve_module_native fs req options = Except.ok resp
      ∧ resp.matched_export = (fs.readPkg pkg_dir).bind (fun pkg =>
          resolve_exports pkg (split_package_specifier (normalizeSlashes req.specifier)).2
            pkg_dir
            (merged_conditions (options.getD default_resolve_options).conditions
              (options.getD default_resolve_options).prefer_cjs))
      ∧ (∀ t, resp.matched_export = some t →
          ∃ raw, t = pjoin pkg_dir (trimDotSlash raw)) := by
  refine ⟨_, resolve_module_native_ok fs req options d hws himp, ?_, ?_⟩
  · show (resolve_core fs d req.project_root (normalizeSlashes req.specifier)
        (merged_conditions (options.getD default_resolve_options).conditions
          (options.getD default_resolve_options).prefer_cjs)
        (options.getD default_resolve_options).extensions).matched_export = _
    simp only [resolve_core, hrel, habs, Bool.or_self, Bool.false_eq_true, if_false, hpkg]
    simp only [resolve_core_pkg]
    cases (fs.readPkg pkg_dir).bind (fun pkg =>
        resolve_exports pkg (split_package_specifier (normalizeSlashes req.specifier)).2
          pkg_dir
          (merged_conditions (options.getD default_resolve_options).conditions
            (options.getD default_resolve_options).prefer_cjs)) with
    | some t => rfl
    | none => rfl
  · intro t ht
    revert ht
    show (resolve_core fs d req.project_root (normalizeSlashes req.specifier)
        (merged_conditions (options.getD default_resolve_options).conditions
          (options.getD default_resolve_options).prefer_cjs)
        (options.getD default_resolve_options).extensions).matched_export = some t → _
    simp only [resolve_core, hrel, habs, Bool.or_self, Bool.false_eq_true, if_false, hpkg]
    simp only [resolve_core_pkg]
    cases hbind : (fs.readPkg pkg_dir) with
    | none => intro ht; simp at ht
    | some pkg =>
      simp only [Option.bind]
      cases hre : resolve_exports pkg
          (split_package_specifier (normalizeSlashes req.specifier)).2 pkg_dir
          (merged_conditions (options.getD default_resolve_options).conditions
            (options.getD default_resolve_options).prefer_cjs) with
      | none => intro ht; simp at ht
      | some target =>
        intro ht
        obtain rfl : target = t := by simpa using ht
        exact resolve_exports_some_shape hre

/-- C1 amended witness: at a concrete package whose root export is
`"./dist/index.js"`, `matched_export` is the joined path. -/
theorem c1_matched_export_amended_witness :
    ∃ resp, resolve_module_native fsC1
        { specifier := "p", importer := "/r/src/a.ts", project_root := none } none
      = Except.ok resp
      ∧ resp.matched_export = (fsC1.readPkg "/r/node_modules/p").bind (fun pkg =>
          resolve_exports pkg
            (split_package_specifier (normalizeSlashes "p")).2 "/r/node_modules/p"
            (merged_conditions
              ((none : Option ResolveOptions).getD default_resolve_options).conditions
              ((none : Option ResolveOptions).getD default_resolve_options).prefer_cjs))
      ∧ (∀ t, resp.matched_export = some t →
          ∃ raw, t = pjoin "/r/node_modules/p" (trimDotSlash raw)) :=
  c1_matched_export_amended fsC1
    { specifier := "p", importer := "/r/src/a.ts", project_root := none } none
    "/r/src" "/r/node_modules/p"
    (by decide) (by decide) (by decide) (by decide) (by decide) (by decide)

/-! ## C9 -/

/-- C9: under the non-error conditions, on every run that returns (i.e.
outside the lib.rs 701 panic region, `resolve_module_panics … = false` —
a panicking run returns no response at all, so the claim about the returned
response is not at stake there), `package_json` in the response is
`some (<package dir>/package.json)` exactly when the specifier is bare and
the package directory is found, and `none` exactly when the specifier is
path-like or the package directory is missing. The right-hand side never
consults `fs.readPkg`: the path is recorded before the manifest is read, so
it is returned even when the manifest is absent or unparseable. -/
theorem c9_package_json_spec (fs : FS) (req : ResolveRequest)
    (options : Option ResolveOptions) (d : String)
    (hws : allWhitespace req.specifier = false)
    (himp : parentPath req.importer = some d)
    (hnp : resolve_module_panics fs req options = false) :
    ∃ resp, resolve_module_native fs req options = Except.ok resp
      ∧ resp.package_json =
          (if is_relative (normalizeSlashes req.specifier)
              || strStartsWith (normalizeSlashes req.specifier) "/" then none
           else
             match resolve_package_dir fs d req.project_root
                 (split_package_specifier (normalizeSlashes req.specifier)).1 with
             | some pkg_dir => some (pjoin pkg_dir "package.json")
             | none => none) := by
  refine ⟨_, resolve_module_native_ok fs req options d hws himp, ?_⟩
  show (resolve_core fs d req.project_root (normalizeSlashes req.specifier)
      (merged_conditions (options.getD default_resolve_options).conditions
        (options.getD default_resolve_options).prefer_cjs)
      (options.getD default_resolve_options).extensions).package_json = _
  cases hpl : (is_relative (normalizeSlashes req.specifier)
      || strStartsWith (normalizeSlashes req.specifier) "/") with
  | true => simp [resolve_core, hpl]
  | false =>
    cases hp : resolve_package_dir fs d req.project_root
        (split_package_specifier (normalizeSlashes req.specifier)).1 with
    | none => simp only [resolve_core, hpl, Bool.false_eq_true, if_false, hp]
    | some pkg_dir =>
      simp only [resolve_core, hpl, Bool.false_eq_true, if_false, hp]
      simp only [resolve_core_pkg]
      cases (fs.readPkg pkg_dir).bind (fun pkg =>
          resolve_exports pkg (split_package_specifier (normalizeSlashes req.specifier)).2
            pkg_dir
            (merged_conditions (options.getD default_resolve_options).conditions
              (options.getD default_resolve_options).prefer_cjs)) with
      | some t => rfl
      | none => rfl

/-- Filesystem for the C9 witness: package directory `q` exists but has no
readable manifest at all (`readPkg` always fails). -/
def fsC9 : FS :=
  { isFile := fun _ => false,
    isDir := fun p => p ∈ (["/r", "/r/node_modules", "/r/node_modules/q"] : List String),
    readDir := fun _ => [],
    readPkg := fun _ => none }

/-- C9 witness: the manifest path is reported although the manifest itself
cannot be read. -/
theorem c9_package_json_spec_witness :
    ∃ resp, resolve_module_native fsC9
        { specifier := "q", importer := "/r/a.ts", project_root := none } none
      = Except.ok resp
      ∧ resp.package_json =
          (if is_relative (normalizeSlashes "q")
              || strStartsWith (normalizeSlashes "q") "/" then none
           else
             match resolve_package_dir fsC9 "/r" none
                 (split_package_specifier (normalizeSlashes "q")).1 with
             | some pkg_dir => some (pjoin pkg_dir "package.json")
             | none => none) :=
  c9_package_json_spec fsC9
    { specifier := "q", importer := "/r/a.ts", project_root := none } none "/r"
    (by decide) (by decide) (by decide)

/-! ## C2 -/

theorem insertSorted_length (x : String) (l : List String) :
    (insertSorted x l).length = l.length + 1 := by
  induction l with
  | nil => rfl
  | cons y ys ih =>
    rw [insertSorted]
    split
    · simp
    · simp [ih]

theorem sortStrings_length (l : List String) : (sortStrings l).length = l.length := by
  induction l with
  | nil => rfl
  | cons x xs ih => rw [sortStrings, insertSorted_length, ih, List.length_cons]

theorem dedupConsec_length_le (l : List String) :
    (dedupConsec l).length ≤ l.length := by
  induction l with
  | nil => simp [dedupConsec]
  | cons x xs ih =>
    cases xs with
    | nil => simp [dedupConsec]
    | cons y rest =>
      rw [dedupConsec]
      split
      · have h1 := ih
        simp only [List.length_cons] at h1 ⊢
        omega
      · have h1 := ih
        simp only [List.length_cons] at h1 ⊢
        omega

theorem discover_entries_len_le (fs : FS)
    (recurse : String → List String → List String → List String × List String)
    (can : Bool)
    (H : ∀ d fl vs, ((recurse d fl vs).1).length ≤ max fl.length 50) :
    ∀ (entries files visited : List String),
      ((discover_dts_entries fs recurse can entries files visited).1).length
        ≤ max files.length 50 := by
  intro entries
  induction entries with
  | nil =>
    intro files visited
    rw [discover_dts_entries]
    exact le_max_left _ _
  | cons e rest ih =>
    intro files visited
    rw [discover_dts_entries]
    by_cases hcap : 50 ≤ files.length
    · rw [if_pos hcap]
      exact le_max_left _ _
    · rw [if_neg hcap]
      by_cases hf : fs.isFile e = true
      · rw [if_pos hf]
        by_cases hdts : (strEndsWith (fileName e) ".d.ts" || strEndsWith (fileName e) ".d.mts"
            || strEndsWith (fileName e) ".d.cts") = true
        · rw [if_pos hdts]
          have h1 := ih (files ++ [e]) visited
          have h2 : (files ++ [e]).length = files.length + 1 := by simp
          omega
        · rw [if_neg hdts]
          exact ih files visited
      · rw [if_neg hf]
        by_cases hd : (fs.isDir e && can) = true
        · rw [if_pos hd]
          by_cases hsub : (fileName e ≠ "node_modules"
              && !(strStartsWith (fileName e) ".")) = true
          · rw [if_pos hsub]
            have h1 := H e files visited
            have h2 := ih (recurse e files visited).1 (recurse e files visited).2
            omega
          · rw [if_neg hsub]
            exact ih files visited
        · rw [if_neg hd]
          exact ih files visited

theorem discover_impl_len_le (fs : FS) :
    ∀ (budget : Nat) (dir : String) (files visited : List String),
      ((discover_dts_in_dir_impl fs budget dir files visited).1).length
        ≤ max files.length 50 := by
  intro budget
  induction budget with
  | zero =>
    intro dir files visited
    rw [discover_dts_in_dir_impl]
    exact le_max_left _ _
  | succ b ih =>
    intro dir files visited
    rw [discover_dts_in_dir_impl]
    by_cases hcap : 50 ≤ files.length
    · rw [if_pos hcap]
      exact le_max_left _ _
    · rw [if_neg hcap]
      by_cases hv : dir ∈ visited
      · rw [if_pos hv]
        exact le_max_left _ _
      · rw [if_neg hv]
        exact discover_entries_len_le fs _ _ (fun d fl vs => ih d fl vs)
          (fs.readDir dir) files (dir :: visited)

theorem discover_dir_len_le (fs : FS) (dir : String) (files visited : List String) :
    ((discover_dts_in_dir fs dir files visited).1).length ≤ max files.length 50 :=
  discover_impl_len_le fs 3 dir files visited

theorem push_and_scan_parent_le (fs : FS) (p : String)
    (st : List String × List String) (B : Nat) (h : st.1.length ≤ B) :
    ((push_and_scan_parent fs p st).1).length ≤ max (B + 1) 50 := by
  unfold push_and_scan_parent
  cases hpp : parentPath p with
  | none =>
    simp only [hpp]
    have h2 : (st.1 ++ [p]).length = st.1.length + 1 := by simp
    omega
  | some parent =>
    simp only [hpp]
    have h1 := discover_dir_len_le fs parent (st.1 ++ [p]) st.2
    have h2 : (st.1 ++ [p]).length = st.1.length + 1 := by simp
    omega

theorem consider_candidate_le (fs : FS) (p : String)
    (st : List String × List String) (B : Nat) (h : st.1.length ≤ B) :
    ((consider_candidate fs p st).1).length ≤ max (B + 1) 50 := by
  unfold consider_candidate
  by_cases hf : fs.isFile p = true
  · rw [if_pos hf]
    exact push_and_scan_parent_le fs p st B h
  · rw [if_neg hf]
    omega

theorem typings_from_manifest_le (fs : FS) (pkg_dir : String) (pkg_json : Json)
    (st : List String × List String) (B : Nat) (h : st.1.length ≤ B) :
    ((typings_from_manifest fs pkg_dir pkg_json st).1).length
      ≤ max (max (B + 1) 50 + 1) 50 := by
  have hstep2 : ∀ (st1 : List String × List String), st1.1.length ≤ max (B + 1) 50 →
      ((match ((jget pkg_json "types").or (jget pkg_json "typings")).bind jasStr with
        | some types => consider_candidate fs (pjoin pkg_dir types) st1
        | none => st1).1).length ≤ max (max (B + 1) 50 + 1) 50 := by
    intro st1 h1
    cases ((jget pkg_json "types").or (jget pkg_json "typings")).bind jasStr with
    | some types => exact consider_candidate_le fs (pjoin pkg_dir types) st1 _ h1
    | none =>
      show st1.1.length ≤ max (max (B + 1) 50 + 1) 50
      omega
  cases hexp : jget pkg_json "exports" with
  | none =>
    simp only [typings_from_manifest, hexp]
    exact hstep2 st (by omega)
  | some exports =>
    cases hrt : resolve_exports_types exports "." pkg_dir with
    | none =>
      simp only [typings_from_manifest, hexp, hrt]
      exact hstep2 st (by omega)
    | some tp =>
      simp only [typings_from_manifest, hexp, hrt]
      exact hstep2 _ (consider_candidate_le fs tp st B h)

theorem foldl_consider_le (fs : FS) (pkg_dir : String) :
    ∀ (l : List String) (st : List String × List String) (B : Nat),
      st.1.length ≤ B →
      ((l.foldl (fun st c => consider_candidate fs (pjoin pkg_dir c) st) st).1).length
        ≤ max B 50 + l.length := by
  intro l
  induction l with
  | nil =>
    intro st B h
    simp only [List.foldl_nil, List.length_nil]
    omega
  | cons c cs ih =>
    intro st B h
    simp only [List.foldl_cons, List.length_cons]
    have h1 := consider_candidate_le fs (pjoin pkg_dir c) st B h
    have h2 := ih (consider_candidate fs (pjoin pkg_dir c) st) (max (B + 1) 50) h1
    omega

theorem typings_from_fallbacks_le (fs : FS) (pkg_dir : String)
    (st : List String × List String) (B : Nat) (h : st.1.length ≤ B) :
    ((typings_from_fallbacks fs pkg_dir st).1).length ≤ max B 50 + 6 :=
  foldl_consider_le fs pkg_dir typings_fallback_candidates st B h

theorem typings_from_at_types_le (fs : FS) (project_root package_name : String)
    (st : List String × List String) (pjp : Option String) (B : Nat)
    (h : st.1.length ≤ B) :
    ((typings_from_at_types fs project_root package_name st pjp).1).length
      ≤ max (B + 1) 50 := by
  unfold typings_from_at_types
  split
  · split
    · rename_i types_dir heq hf
      have h1 := discover_dir_len_le fs types_dir
        (st.1 ++ [pjoin types_dir "index.d.ts"]) st.2
      have h2 : (st.1 ++ [pjoin types_dir "index.d.ts"]).length = st.1.length + 1 := by
        simp
      show (discover_dts_in_dir fs types_dir
          (st.1 ++ [pjoin types_dir "index.d.ts"]) st.2).1.length ≤ max (B + 1) 50
      omega
    · show st.1.length ≤ max (B + 1) 50
      omega
  · show st.1.length ≤ max (B + 1) 50
    omega

/-- C2 amended: `discover_typings_native` returns at most 58 files. The
50-file cap is enforced only inside the sibling-discovery scan
(`discover_dts_in_dir_impl`, before each directory read and before each
per-entry push); the up-to-9 direct candidate pushes in
`discover_typings_native` itself are not capped, so the total can exceed
50 — but never 58, i.e. by at most 8, since the first direct push happens
below the cap. -/
theorem c2_files_bound_amended (fs : FS) (package_name project_root : String) :
    (discover_typings_native fs package_name project_root).files.length ≤ 58 := by
  have hstage : (typings_stage fs package_name project_root).1.1.length ≤ 57 := by
    unfold typings_stage
    cases hpd : resolve_package_dir fs project_root (some project_root) package_name with
    | none => simp
    | some pkg_dir =>
      show (typings_from_fallbacks fs pkg_dir
          (match fs.readPkg pkg_dir with
           | some pkg_json => typings_from_manifest fs pkg_dir pkg_json ([], [])
           | none => ([], []))).1.length ≤ 57
      have hst1 : ((match fs.readPkg pkg_dir with
          | some pkg_json => typings_from_manifest fs pkg_dir pkg_json ([], [])
          | none => (([] : List String), ([] : List String)))).1.length ≤ 51 := by
        cases fs.readPkg pkg_dir with
        | none => simp
        | some pkg_json =>
          show (typings_from_manifest fs pkg_dir pkg_json ([], [])).1.length ≤ 51
          have := typings_from_manifest_le fs pkg_dir pkg_json ([], []) 0 (by simp)
          omega
      have := typings_from_fallbacks_le fs pkg_dir _ 51 hst1
      omega
  have hat := typings_from_at_types_le fs project_root package_name
    (typings_stage fs package_name project_root).1
    (typings_stage fs package_name project_root).2 57 hstage
  have hdedup := dedupConsec_length_le (sortStrings
    (typings_from_at_types fs project_root package_name
      (typings_stage fs package_name project_root).1
      (typings_stage fs package_name project_root).2).1)
  rw [sortStrings_length] at hdedup
  show (dedupConsec (sortStrings
      (typings_from_at_types fs project_root package_name
        (typings_stage fs package_name project_root).1
        (typings_stage fs package_name project_root).2).1)).length ≤ 58
  omega

/-- 50 sibling declaration files for the C2 counterexample. -/
def c2SiblingFiles : List String :=
  (List.range 50).map (fun i => "/r/node_modules/f/x" ++ toString (10 + i) ++ ".d.ts")

/-- The direct listing of the package directory in the C2 counterexample. -/
def c2DirFiles : List String := "/r/node_modules/f/index.d.ts" :: c2SiblingFiles

/-- Conventional fallback candidates that also exist in the C2
counterexample, each in its own subdirectory. -/
def c2ExtraFiles : List String :=
  ["/r/node_modules/f/dist/index.d.ts", "/r/node_modules/f/lib/index.d.ts",
   "/r/node_modules/f/types/index.d.ts", "/r/node_modules/f/build/index.d.ts"]

/-- Filesystem for the C2 counterexample: package `f` (with an unreadable
manifest) holding 51 declaration files directly plus one under each of
`dist`, `lib`, `types` and `build`. -/
def fsC2 : FS :=
  { isFile := fun p => c2DirFiles.contains p || c2ExtraFiles.contains p,
    isDir := fun p =>
      p ∈ (["/r", "/r/node_modules", "/r/node_modules/f", "/r/node_modules/f/dist",
            "/r/node_modules/f/lib", "/r/node_modules/f/types",
            "/r/node_modules/f/build"] : List String),
    readDir := fun p =>
      if p = "/r/node_modules/f" then
        c2DirFiles ++ ["/r/node_modules/f/dist", "/r/node_modules/f/lib",
          "/r/node_modules/f/types", "/r/node_modules/f/build"]
      else [],
    readPkg := fun _ => none }

set_option maxRecDepth 10000 in
/-- C2 counterexample: 53 files are returned, exceeding the claimed cap of
50. The fallback candidate `index.d.ts` plus its sibling scan fill `files`
to the 50-file cap, after which the `dist`, `lib`, `types` and `build`
fallback candidates are each pushed without any cap check
(lib.rs 222-229), and sorting/deduplication leaves 53 distinct entries. -/
theorem c2_cap_counterexample :
    (discover_typings_native fsC2 "f" "/r").files.length = 53 := by decide

/-- C7 witness: a successful probe indeed lands on an existing regular file. -/
theorem c7_extension_probe_spec_witness :
    fsC1.isFile "/r/node_modules/p/dist/index.js" = true :=
  (c7_extension_probe_spec fsC1 "/r/node_modules/p/dist/index.js" []).2
    "/r/node_modules/p/dist/index.js" (by decide)
